import Mathlib

/-!
# Verification of `validator.go`

A shallow embedding of the struct validator of `src/validator.go` and theorems
about it.

Modelling choices.

* A Go string is a list of Unicode characters (`GoString`); the Go `len` of a
  string is its UTF-8 byte count (`len`).  Only strings that are valid UTF-8
  are represented.
* Go `int` and `int64` are 64-bit; they are embedded in `Int`.  The code does
  no arithmetic on them (only comparisons and formatting), the one place where
  the width matters is `strconv.Atoi`, which rejects texts out of range.
* The library functions `strings.Split`, `strings.Cut`, `strings.TrimSpace`,
  `strconv.Atoi`, `strconv.Itoa`, `strconv.FormatInt` are modelled from their
  documented behaviour.
* `reflect`: a struct value is the list of its fields in declaration order;
  each field carries its name, its package path (empty exactly for exported
  fields), the result of `Tag.Lookup("validate")` and its value.  The kind of
  a field is read off its value (`reflect` guarantees that the kind of
  `v_value.Field(i)` is the kind of `v_type.Field(i).Type`).
* The shared collection `*valid_err` is passed explicitly: every function that
  receives the pointer takes the collection and returns the new one.  The
  mutex makes each append atomic; `Validate` is run under an explicit schedule
  that picks, step by step, which field task performs its next append.
-/

namespace Validator

/-! ## Strings and the library functions used by the validator -/

/-- A Go string, as the list of its characters. -/
abbrev GoString := List Char

/-- Go `len(s)` for a string: the number of bytes of its UTF-8 encoding. -/
def len (s : GoString) : Int := ((s.map Char.utf8Size).sum : Nat)

/-- Go `unicode.IsSpace`. -/
def isSpace (c : Char) : Bool :=
  let n := c.toNat
  decide (n = 0x09) || decide (n = 0x0A) || decide (n = 0x0B) || decide (n = 0x0C) ||
  decide (n = 0x0D) || decide (n = 0x20) || decide (n = 0x85) || decide (n = 0xA0) ||
  decide (n = 0x1680) || (decide (0x2000 ≤ n) && decide (n ≤ 0x200A)) ||
  decide (n = 0x2028) || decide (n = 0x2029) || decide (n = 0x202F) ||
  decide (n = 0x205F) || decide (n = 0x3000)

/-- Go `strings.TrimSpace`: leading and trailing white space removed. -/
def TrimSpace (s : GoString) : GoString :=
  ((s.dropWhile isSpace).reverse.dropWhile isSpace).reverse

/-- Go `strings.Cut(s, sep)`: the text before and after the first occurrence of
`sep`, and whether `sep` occurs; `(s, "", false)` when it does not. -/
def Cut : GoString → GoString → GoString × GoString × Bool
  | [], sep => if sep = [] then ([], [], true) else ([], [], false)
  | c :: cs, sep =>
    if sep.isPrefixOf (c :: cs) then ([], (c :: cs).drop sep.length, true)
    else
      match Cut cs sep with
      | (before, after, true) => (c :: before, after, true)
      | (_, _, false) => (c :: cs, [], false)

/-- The loop of Go `strings.Split` for a non-empty separator: cut at the first
occurrence of `sep`, continue with the rest.  Every cut shortens the text, so
`fuel = s.length` cuts are never exceeded. -/
def SplitLoop : Nat → GoString → GoString → List GoString
  | 0, s, _ => [s]
  | fuel + 1, s, sep =>
    match Cut s sep with
    | (before, after, true) => before :: SplitLoop fuel after sep
    | (_, _, false) => [s]

/-- Go `strings.Split(s, sep)`. -/
def Split (s sep : GoString) : List GoString :=
  if sep = [] then s.map (fun c => [c]) else SplitLoop s.length s sep

/-- The digits of a decimal text, accumulated on `n`; `none` on a character
that is not a decimal digit. -/
def parseDigits : List Char → Nat → Option Nat
  | [], n => some n
  | c :: cs, n =>
    if 48 ≤ c.toNat ∧ c.toNat ≤ 57 then parseDigits cs (n * 10 + (c.toNat - 48)) else none

/-- Go `strconv.Atoi` on a 64-bit platform: an optional sign followed by one or
more decimal digits, the value within the range of `int`; `none` stands for a
non-nil error (`ErrSyntax` or `ErrRange`). -/
def Atoi (s : GoString) : Option Int :=
  match s with
  | [] => none
  | c :: cs =>
    let neg := decide (c = '-')
    let digits := if c = '-' ∨ c = '+' then cs else c :: cs
    if digits = [] then none
    else
      match parseDigits digits 0 with
      | none => none
      | some n =>
        let v : Int := if neg then -(n : Int) else (n : Int)
        if -(2 ^ 63 : Int) ≤ v ∧ v < (2 ^ 63 : Int) then some v else none

/-- Go `strconv.FormatInt(v, 10)`. -/
def FormatInt (v : Int) : GoString :=
  if v < 0 then '-' :: Nat.toDigits 10 v.natAbs else Nat.toDigits 10 v.toNat

/-- Go `strconv.Itoa`. -/
def Itoa (v : Int) : GoString := FormatInt v

/-- The slice `s[:n]` of a Go string, `n` counted in bytes.  `none` when `n` is
out of range (the slice expression panics) or falls inside the encoding of a
character. -/
def sliceTo : GoString → Nat → Option GoString
  | _, 0 => some []
  | [], _ + 1 => none
  | c :: cs, n + 1 =>
    if c.utf8Size ≤ n + 1 then (sliceTo cs (n + 1 - c.utf8Size)).map (fun r => c :: r)
    else none

/-! ## Errors -/

/-- The error values the package creates: its three package-level errors and the
values made by `errors.New` at a check. -/
inductive GoError
  | ErrNotStruct
  | ErrInvalidValidatorSyntax
  | ErrValidateForUnexportedFields
  | New (text : GoString)
  deriving DecidableEq, Repr

/-- The method `Error()` of an error value. -/
def GoError.Error : GoError → GoString
  | .ErrNotStruct => "wrong argument given, should be a struct".toList
  | .ErrInvalidValidatorSyntax => "invalid validator syntax".toList
  | .ErrValidateForUnexportedFields => "validation for unexported field is not allowed".toList
  | .New text => text

/-- The type `ValidationError`, a struct with the one field `Err error`. -/
structure ValidationError where
  Err : GoError
  deriving DecidableEq, Repr

/-- The type `ValidationErrors`, a slice of `ValidationError`. -/
abbrev ValidationErrors := List ValidationError

/-- The method `func (v ValidationErrors) Error() string`; `none` when the slice expression
`err[:len(err)-2]` panics. -/
def ValidationErrors.Error (v : ValidationErrors) : Option GoString :=
  let err : GoString := v.foldl (fun err errs => err ++ errs.Err.Error ++ " ,".toList) []
  if len err > 0 then
    if len err - 2 < 0 then none else sliceTo err (len err - 2).toNat
  else some err

/-! ## Reflection data -/

/-- Go `reflect.Kind`. -/
inductive Kind
  | Invalid | Bool | Int | Int8 | Int16 | Int32 | Int64
  | Uint | Uint8 | Uint16 | Uint32 | Uint64 | Uintptr
  | Float32 | Float64 | Complex64 | Complex128
  | Array | Chan | Func | Interface | Map | Pointer | Slice
  | String | Struct | UnsafePointer
  deriving DecidableEq, Repr

/-- The `reflect.Value` of a struct field, as far as the validator reads it: the
integer of a field of kind `Int`, the text of a field of kind `String`, and
only the kind of a field of any other kind. -/
inductive Value
  | int (n : Int)
  | str (s : GoString)
  | other (k : Kind) (hInt : k ≠ Kind.Int) (hString : k ≠ Kind.String)

/-- The kind `v.Kind()`, equal to `f.Type.Kind()` for the field `f` holding `v`. -/
def Value.Kind : Value → Kind
  | .int _ => .Int
  | .str _ => .String
  | .other k _ _ => k

/-- Go `reflect.StructField`: the name, the package path (empty for an exported
field) and the result of `Tag.Lookup("validate")`. -/
structure StructField where
  Name : GoString
  PkgPath : GoString
  Tag : Option GoString

/-- The method `f.IsExported()`: the package path is empty. -/
def StructField.IsExported (f : StructField) : Bool := decide (f.PkgPath = [])

/-- One field of a struct value: `v_type.Field(i)` and `v_value.Field(i)`. -/
structure Field where
  f : StructField
  v : Value

/-- A value of type `any` passed to `Validate`: the untyped nil, a struct, or a
value of another kind (a pointer to a struct has kind `Pointer`). -/
inductive Any
  | nil
  | struct (fields : List Field)
  | other (k : Kind) (h : k ≠ Kind.Struct)

/-- The call `reflect.TypeOf(v)` followed by `Kind()`: `none` when `TypeOf` returns the nil
type (the untyped nil), on which `Kind()` is a nil dereference. -/
def TypeOfKind : Any → Option Kind
  | .nil => none
  | .struct _ => some .Struct
  | .other k _ => some k

/-- The fields of `reflect.ValueOf(v)`, in declaration order. -/
def Any.fields : Any → List Field
  | .struct fields => fields
  | _ => []

/-! ## The validator -/

/-- The function `CheckExport`: the new collection and the returned error. -/
def CheckExport (f : StructField) (valid_err : ValidationErrors) :
    ValidationErrors × Option GoError :=
  if !f.IsExported then
    (valid_err ++ [⟨.ErrValidateForUnexportedFields⟩], some (.New "field is not exported".toList))
  else (valid_err, none)

/-- The function `MinCheckInt`. -/
def MinCheckInt (v : Int) (min_value : Int) (name : GoString) (valid_err : ValidationErrors) :
    ValidationErrors :=
  if v < min_value then
    valid_err ++ [⟨.New ("field ".toList ++ name ++ " is less than ".toList ++ Itoa min_value)⟩]
  else valid_err

/-- The function `MinCheck`. -/
def MinCheck (min_value : Int) (f : StructField) (v : Value) (valid_err : ValidationErrors) :
    ValidationErrors :=
  match v with
  | .str s => MinCheckInt (len s) min_value f.Name valid_err
  | .int n => MinCheckInt n min_value f.Name valid_err
  | .other _ _ _ => valid_err

/-- The function `MaxCheckInt`. -/
def MaxCheckInt (v : Int) (max_value : Int) (name : GoString) (valid_err : ValidationErrors) :
    ValidationErrors :=
  if v > max_value then
    valid_err ++ [⟨.New ("field ".toList ++ name ++ " is greater than ".toList ++ Itoa max_value)⟩]
  else valid_err

/-- The function `MaxCheck`. -/
def MaxCheck (max_value : Int) (f : StructField) (v : Value) (valid_err : ValidationErrors) :
    ValidationErrors :=
  match v with
  | .str s => MaxCheckInt (len s) max_value f.Name valid_err
  | .int n => MaxCheckInt n max_value f.Name valid_err
  | .other _ _ _ => valid_err

/-- The function `WriteInCheckError`. -/
def WriteInCheckError (res name : GoString) (valid_err : ValidationErrors) : ValidationErrors :=
  valid_err ++ [⟨.New ("value of field ".toList ++ name ++ " is not in ".toList ++ res)⟩]

/-- The function `InCheckString`. -/
def InCheckString (value res name : GoString) (valid_err : ValidationErrors) :
    ValidationErrors :=
  if res = [] then WriteInCheckError res name valid_err
  else if value ∈ Split res ",".toList then valid_err
  else WriteInCheckError res name valid_err

/-- The function `InCheck`: `s` keeps its zero value, the empty string, for a field that
is neither an `Int` nor a `String`. -/
def InCheck (_f : StructField) (v : Value) (res name : GoString)
    (valid_err : ValidationErrors) : ValidationErrors :=
  let s : GoString :=
    match v with
    | .int n => FormatInt n
    | .str s => s
    | .other _ _ _ => []
  InCheckString s res name valid_err

/-- The loop `for _, tag := range tags` of `ValidateField`; a `return` inside the
loop ends it with the collection as it stands. -/
def validateTags (f : StructField) (v : Value) : List GoString → ValidationErrors →
    ValidationErrors
  | [], valid_err => valid_err
  | tag :: tags, valid_err =>
    match Cut (TrimSpace tag) ":".toList with
    | (_, _, false) => valid_err ++ [⟨.ErrInvalidValidatorSyntax⟩]
    | (tag_word, res, true) =>
      if tag_word = "min".toList then
        match Atoi res with
        | none => valid_err ++ [⟨.ErrInvalidValidatorSyntax⟩]
        | some min_value => validateTags f v tags (MinCheck min_value f v valid_err)
      else if tag_word = "max".toList then
        match Atoi res with
        | none => valid_err ++ [⟨.ErrInvalidValidatorSyntax⟩]
        | some max_value => validateTags f v tags (MaxCheck max_value f v valid_err)
      else if tag_word = "len".toList then
        match Atoi res with
        | none => valid_err ++ [⟨.ErrInvalidValidatorSyntax⟩]
        | some len => validateTags f v tags (MinCheck len f v (MaxCheck len f v valid_err))
      else if tag_word = "in".toList then
        validateTags f v tags (InCheck f v res f.Name valid_err)
      else validateTags f v tags valid_err

/-- The function `ValidateField`, as the collection it leaves behind. -/
def ValidateField (f : StructField) (v : Value) (valid_err : ValidationErrors) :
    ValidationErrors :=
  match f.Tag with
  | none => valid_err
  | some tagstr =>
    match CheckExport f valid_err with
    | (valid_err, some _) => valid_err
    | (valid_err, none) => validateTags f v (Split tagstr ", ".toList) valid_err

/-- The appends one field task makes, in order: the task only ever appends to
the shared collection, so they are what it leaves on an empty one. -/
def taskAppends (fld : Field) : ValidationErrors := ValidateField fld.f fld.v []

/-- One scheduling step: the task at position `i` performs its next append, if it
has one left. -/
def stepTask : Nat → List ValidationErrors → ValidationErrors →
    List ValidationErrors × ValidationErrors
  | _, [], valid_err => ([], valid_err)
  | 0, [] :: tasks, valid_err => ([] :: tasks, valid_err)
  | 0, (e :: es) :: tasks, valid_err => (es :: tasks, valid_err ++ [e])
  | i + 1, task :: tasks, valid_err =>
    ((stepTask i tasks valid_err).1.cons task, (stepTask i tasks valid_err).2)

/-- The field tasks run under a schedule (the positions of the tasks that append
next); `wg.Wait()` returns only when every task is done, so what the schedule
leaves pending is appended before the collection is read. -/
def runTasks : List Nat → List ValidationErrors → ValidationErrors → ValidationErrors
  | [], tasks, valid_err => valid_err ++ tasks.flatten
  | i :: sched, tasks, valid_err =>
    runTasks sched (stepTask i tasks valid_err).1 (stepTask i tasks valid_err).2

/-- What a call of `Validate` does: it panics, or returns `nil`, `ErrNotStruct`
or the collection. -/
inductive Outcome
  | panic
  | nil
  | ErrNotStruct
  | errs (valid_err : ValidationErrors)
  deriving DecidableEq, Repr

/-- The function `Validate`, under a schedule of the field tasks. -/
def Validate (sched : List Nat) (v : Any) : Outcome :=
  match TypeOfKind v with
  | none => .panic
  | some k =>
    if k ≠ .Struct then .ErrNotStruct
    else
      let valid_err := runTasks sched (v.fields.map taskAppends) []
      if valid_err.length = 0 then .nil else .errs valid_err

/-! ## Notions used in the statements -/

/-- The measure `min`, `max` and `len` compare with the bound: the length of a
string field as `v.Len()` gives it, the value of an integer field. -/
def measure : Value → Int
  | .int n => n
  | .str s => len s
  | .other _ _ _ => 0

/-- The text `in` compares with the pieces of its list: the string of a string
field, the base-10 text of an integer field. -/
def valueText : Value → GoString
  | .int n => FormatInt n
  | .str s => s
  | .other _ _ _ => []

/-- The clauses of an annotation: its pieces between `", "`, each trimmed. -/
def clauses (tagstr : GoString) : List GoString := (Split tagstr ", ".toList).map TrimSpace

/-- A malformed clause: no `:` in it, or the name `min`, `max` or `len` with an
argument `strconv.Atoi` rejects. -/
def isMalformed (tag : GoString) : Bool :=
  match Cut (TrimSpace tag) ":".toList with
  | (_, _, false) => true
  | (tag_word, res, true) =>
    (decide (tag_word = "min".toList) || decide (tag_word = "max".toList) ||
      decide (tag_word = "len".toList)) && (Atoi res).isNone

/-- An error made by `errors.New` at a check of a rule. -/
def isRuleViolation (e : ValidationError) : Prop := ∃ text, e = ⟨GoError.New text⟩

/-! ## Inputs used in the statements below -/

/-- The struct `struct { Age int }` with the annotation `len:3` and the value 5. -/
def ageInput : Any :=
  .struct [⟨⟨"Age".toList, [], some "len:3".toList⟩, .int 5⟩]

/-- A struct without any `validate` annotation: an exported string, an unexported
integer and an exported boolean field. -/
def plainFields : List Field :=
  [⟨⟨"Name".toList, [], none⟩, .str "o".toList⟩,
   ⟨⟨"age".toList, "main".toList, none⟩, .int (-7)⟩,
   ⟨⟨"Flag".toList, [], none⟩, .other .Bool (by decide) (by decide)⟩]

/-- The messages joined by a separator, none before the first or after the last. -/
def joinWith (sep : GoString) : List GoString → GoString
  | [] => []
  | [m] => m
  | m :: m2 :: ms => m ++ sep ++ joinWith sep (m2 :: ms)

/-- A clause with a name the validator does not know: it has a `:` and its name
is none of `min`, `max`, `len`, `in`. -/
def isUnrecognized (tag : GoString) : Bool :=
  match Cut (TrimSpace tag) ":".toList with
  | (_, _, false) => false
  | (tag_word, _, true) =>
    !(decide (tag_word = "min".toList) || decide (tag_word = "max".toList) ||
      decide (tag_word = "len".toList) || decide (tag_word = "in".toList))

/-- One pass of the body of the loop of `ValidateField` on one clause: the
collection it leaves, and whether the loop goes on (`false` after a `return`). -/
def clauseStep (f : StructField) (v : Value) (tag : GoString) (valid_err : ValidationErrors) :
    ValidationErrors × Bool :=
  match Cut (TrimSpace tag) ":".toList with
  | (_, _, false) => (valid_err ++ [⟨.ErrInvalidValidatorSyntax⟩], false)
  | (tag_word, res, true) =>
    if tag_word = "min".toList then
      match Atoi res with
      | none => (valid_err ++ [⟨.ErrInvalidValidatorSyntax⟩], false)
      | some min_value => (MinCheck min_value f v valid_err, true)
    else if tag_word = "max".toList then
      match Atoi res with
      | none => (valid_err ++ [⟨.ErrInvalidValidatorSyntax⟩], false)
      | some max_value => (MaxCheck max_value f v valid_err, true)
    else if tag_word = "len".toList then
      match Atoi res with
      | none => (valid_err ++ [⟨.ErrInvalidValidatorSyntax⟩], false)
      | some len => (MinCheck len f v (MaxCheck len f v valid_err), true)
    else if tag_word = "in".toList then
      (InCheck f v res f.Name valid_err, true)
    else (valid_err, true)

/-- The collection an outcome of `Validate` carries: empty for `nil`. -/
def Outcome.collection : Outcome → ValidationErrors
  | .errs valid_err => valid_err
  | _ => []

/-- The interleavings of the appends of the field tasks: at every step some task
with an append left performs its next append, until no task has one left. -/
inductive Interleaving : List ValidationErrors → ValidationErrors → Prop
  | done (tasks : List ValidationErrors) (h : ∀ t ∈ tasks, t = []) : Interleaving tasks []
  | step (tasks : List ValidationErrors) (i : Nat) (e : ValidationError)
      (es rest : ValidationErrors) (h : tasks[i]? = some (e :: es))
      (hrest : Interleaving (tasks.set i es) rest) : Interleaving tasks (e :: rest)

/-! ## The fuel of `Split` is enough -/

theorem Cut_after_length (sep : GoString) (hsep : sep ≠ []) :
    ∀ (s before after : GoString), Cut s sep = (before, after, true) →
      after.length < s.length := by
  intro s
  induction s with
  | nil =>
    intro before after h
    simp [Cut, hsep] at h
  | cons c cs ih =>
    intro before after h
    rw [Cut] at h
    split at h
    · injection h with _ h2
      injection h2 with h3 _
      rw [← h3, List.length_drop]
      have hpos : 0 < sep.length := List.length_pos.mpr hsep
      simp only [List.length_cons]
      omega
    · split at h
      · rename_i b a heq
        injection h with _ h2
        injection h2 with h3 _
        have := ih b a heq
        rw [← h3, List.length_cons]
        omega
      · injection h with _ h2
        injection h2 with _ h4
        cases h4

theorem SplitLoop_fuel (sep : GoString) (hsep : sep ≠ []) :
    ∀ (fuel1 fuel2 : Nat) (s : GoString), s.length ≤ fuel1 → s.length ≤ fuel2 →
      SplitLoop fuel1 s sep = SplitLoop fuel2 s sep := by
  have hnil : ∀ fuel : Nat, SplitLoop fuel [] sep = [[]] := by
    intro fuel
    cases fuel with
    | zero => rfl
    | succ n => simp [SplitLoop, Cut, hsep]
  intro fuel1
  induction fuel1 with
  | zero =>
    intro fuel2 s h1 _
    have hs : s = [] := List.length_eq_zero.mp (Nat.le_zero.mp h1)
    rw [hs, hnil, hnil]
  | succ n ih =>
    intro fuel2 s h1 h2
    cases fuel2 with
    | zero =>
      have hs : s = [] := List.length_eq_zero.mp (Nat.le_zero.mp h2)
      rw [hs, hnil, hnil]
    | succ m =>
      rw [SplitLoop, SplitLoop]
      split
      · rename_i b a heq
        have hlt := Cut_after_length sep hsep s b a heq
        rw [ih m a (by omega) (by omega)]
      · rfl

/-! ## The collection only grows by appends -/

theorem MinCheckInt_append (x m : Int) (name : GoString) (errs : ValidationErrors) :
    MinCheckInt x m name errs = errs ++ MinCheckInt x m name [] := by
  unfold MinCheckInt
  split <;> simp

theorem MaxCheckInt_append (x m : Int) (name : GoString) (errs : ValidationErrors) :
    MaxCheckInt x m name errs = errs ++ MaxCheckInt x m name [] := by
  unfold MaxCheckInt
  split <;> simp

theorem MinCheck_append (m : Int) (f : StructField) (v : Value) (errs : ValidationErrors) :
    MinCheck m f v errs = errs ++ MinCheck m f v [] := by
  cases v with
  | int n => exact MinCheckInt_append n m f.Name errs
  | str s => exact MinCheckInt_append (len s) m f.Name errs
  | other k h1 h2 => simp [MinCheck]

theorem MaxCheck_append (m : Int) (f : StructField) (v : Value) (errs : ValidationErrors) :
    MaxCheck m f v errs = errs ++ MaxCheck m f v [] := by
  cases v with
  | int n => exact MaxCheckInt_append n m f.Name errs
  | str s => exact MaxCheckInt_append (len s) m f.Name errs
  | other k h1 h2 => simp [MaxCheck]

theorem InCheck_append (f : StructField) (v : Value) (res name : GoString)
    (errs : ValidationErrors) :
    InCheck f v res name errs = errs ++ InCheck f v res name [] := by
  simp only [InCheck, InCheckString, WriteInCheckError]
  split
  · simp
  · split <;> simp

theorem validateTags_append (f : StructField) (v : Value) (tags : List GoString) :
    ∀ errs : ValidationErrors, validateTags f v tags errs = errs ++ validateTags f v tags [] := by
  induction tags with
  | nil => intro errs; simp [validateTags]
  | cons tag tags ih =>
    intro errs
    rw [validateTags, validateTags]
    split
    · simp
    · split
      · split
        · simp
        · rw [ih (MinCheck _ f v errs), ih (MinCheck _ f v []), MinCheck_append]
          simp
      · split
        · split
          · simp
          · rw [ih (MaxCheck _ f v errs), ih (MaxCheck _ f v []), MaxCheck_append]
            simp
        · split
          · split
            · simp
            · rw [ih (MinCheck _ f v _), ih (MinCheck _ f v (MaxCheck _ f v [])),
                MinCheck_append _ f v (MaxCheck _ f v errs), MinCheck_append _ f v (MaxCheck _ f v []),
                MaxCheck_append _ f v errs]
              simp
          · split
            · rw [ih (InCheck f v _ f.Name errs), ih (InCheck f v _ f.Name []), InCheck_append]
              simp
            · exact ih errs

theorem ValidateField_append (f : StructField) (v : Value) (errs : ValidationErrors) :
    ValidateField f v errs = errs ++ ValidateField f v [] := by
  unfold ValidateField
  cases f.Tag with
  | none => simp
  | some tagstr =>
    simp only [CheckExport]
    cases f.IsExported with
    | false => simp
    | true => simpa using validateTags_append f v _ errs

/-! ## The schedule only permutes the appends -/

theorem stepTask_perm : ∀ (i : Nat) (tasks : List ValidationErrors) (errs : ValidationErrors),
    List.Perm ((stepTask i tasks errs).2 ++ (stepTask i tasks errs).1.flatten)
      (errs ++ tasks.flatten) := by
  intro i tasks
  induction tasks generalizing i with
  | nil => intro errs; cases i <;> simp [stepTask]
  | cons task tasks ih =>
    intro errs
    cases i with
    | zero =>
      cases task with
      | nil => simp [stepTask]
      | cons e es => simp [stepTask]
    | succ i =>
      simp only [stepTask, List.flatten_cons]
      have h := ih i errs
      have h1 : List.Perm ((stepTask i tasks errs).2 ++ (task ++ (stepTask i tasks errs).1.flatten))
          (task ++ ((stepTask i tasks errs).2 ++ (stepTask i tasks errs).1.flatten)) := by
        rw [← List.append_assoc, ← List.append_assoc]
        exact List.Perm.append_right _ List.perm_append_comm
      have h2 : List.Perm (task ++ (errs ++ tasks.flatten)) (errs ++ (task ++ tasks.flatten)) := by
        rw [← List.append_assoc, ← List.append_assoc]
        exact List.Perm.append_right _ List.perm_append_comm
      exact (h1.trans (List.Perm.append_left _ h)).trans h2

theorem runTasks_perm : ∀ (sched : List Nat) (tasks : List ValidationErrors)
    (errs : ValidationErrors),
    List.Perm (runTasks sched tasks errs) (errs ++ tasks.flatten) := by
  intro sched
  induction sched with
  | nil => intro tasks errs; simp [runTasks]
  | cons i sched ih =>
    intro tasks errs
    rw [runTasks]
    exact (ih _ _).trans (stepTask_perm i tasks errs)

theorem flatten_eq_nil_of_forall {α : Type} (ls : List (List α)) (h : ∀ l ∈ ls, l = []) :
    ls.flatten = [] := by
  induction ls with
  | nil => rfl
  | cons l ls ih =>
    have hl : l = [] := h l (List.mem_cons_self _ _)
    have hls : ls.flatten = [] := ih (fun x hx => h x (List.mem_cons_of_mem _ hx))
    simp [hl, hls]

theorem flatten_eq_nil_iff_forall {α : Type} (ls : List (List α)) :
    ls.flatten = [] ↔ ∀ l ∈ ls, l = [] := by
  constructor
  · intro h l hl
    induction ls with
    | nil => cases hl
    | cons x xs ih =>
      simp only [List.flatten_cons, List.append_eq_nil] at h
      cases hl with
      | head => exact h.1
      | tail _ hmem => exact ih h.2 hmem
  · exact flatten_eq_nil_of_forall ls

theorem runTasks_eq_nil_iff (sched : List Nat) (tasks : List ValidationErrors) :
    runTasks sched tasks [] = [] ↔ ∀ l ∈ tasks, l = [] := by
  have h := runTasks_perm sched tasks []
  rw [List.nil_append] at h
  rw [← flatten_eq_nil_iff_forall]
  constructor
  · intro h0
    rw [h0] at h
    exact List.Perm.nil_eq h |>.symm
  · intro h0
    rw [h0] at h
    exact List.Perm.eq_nil h

theorem Validate_struct_eq (sched : List Nat) (fields : List Field) :
    Validate sched (Any.struct fields) =
      if (runTasks sched (fields.map taskAppends) []).length = 0 then Outcome.nil
      else Outcome.errs (runTasks sched (fields.map taskAppends) []) := by
  simp [Validate, TypeOfKind, Any.fields]

/-! ## One clause of an annotation -/

theorem Cut_min (arg : GoString) :
    Cut ("min:".toList ++ arg) ":".toList = ("min".toList, arg, true) := by
  show Cut ('m' :: 'i' :: 'n' :: ':' :: arg) [':'] = (['m', 'i', 'n'], arg, true)
  simp [Cut, List.isPrefixOf]

theorem Cut_max (arg : GoString) :
    Cut ("max:".toList ++ arg) ":".toList = ("max".toList, arg, true) := by
  show Cut ('m' :: 'a' :: 'x' :: ':' :: arg) [':'] = (['m', 'a', 'x'], arg, true)
  simp [Cut, List.isPrefixOf]

theorem Cut_in (arg : GoString) :
    Cut ("in:".toList ++ arg) ":".toList = ("in".toList, arg, true) := by
  show Cut ('i' :: 'n' :: ':' :: arg) [':'] = (['i', 'n'], arg, true)
  simp [Cut, List.isPrefixOf]

theorem validateTags_cons_min (f : StructField) (v : Value) (tag arg : GoString) (N : Int)
    (tags : List GoString) (errs : ValidationErrors)
    (htag : TrimSpace tag = "min:".toList ++ arg) (harg : Atoi arg = some N) :
    validateTags f v (tag :: tags) errs = validateTags f v tags (MinCheck N f v errs) := by
  rw [validateTags, htag, Cut_min]
  simp [harg]

theorem validateTags_cons_max (f : StructField) (v : Value) (tag arg : GoString) (N : Int)
    (tags : List GoString) (errs : ValidationErrors)
    (htag : TrimSpace tag = "max:".toList ++ arg) (harg : Atoi arg = some N) :
    validateTags f v (tag :: tags) errs = validateTags f v tags (MaxCheck N f v errs) := by
  rw [validateTags, htag, Cut_max]
  have hne : ¬ ("max".toList = "min".toList) := by decide
  simp [harg, hne]

theorem validateTags_cons_in (f : StructField) (v : Value) (tag arg : GoString)
    (tags : List GoString) (errs : ValidationErrors)
    (htag : TrimSpace tag = "in:".toList ++ arg) :
    validateTags f v (tag :: tags) errs = validateTags f v tags (InCheck f v arg f.Name errs) := by
  rw [validateTags, htag, Cut_in]
  have h1 : ¬ ("in".toList = "min".toList) := by decide
  have h2 : ¬ ("in".toList = "max".toList) := by decide
  have h3 : ¬ ("in".toList = "len".toList) := by decide
  simp [h1, h2, h3]

theorem clauses_singleton (tagstr clause : GoString) (h : clauses tagstr = [clause]) :
    ∃ tag, Split tagstr ", ".toList = [tag] ∧ TrimSpace tag = clause := by
  unfold clauses at h
  cases hs : Split tagstr ", ".toList with
  | nil => rw [hs] at h; cases h
  | cons tag rest =>
    rw [hs] at h
    cases rest with
    | nil =>
      refine ⟨tag, rfl, ?_⟩
      simpa using h
    | cons t2 rest => simp at h

theorem ValidateField_exported (name : GoString) (v : Value) (tagstr : GoString) :
    ValidateField ⟨name, [], some tagstr⟩ v [] = validateTags ⟨name, [], some tagstr⟩ v
      (Split tagstr ", ".toList) [] := by
  simp [ValidateField, CheckExport, StructField.IsExported]

/-! ## The first malformed clause -/

theorem MinCheck_ruleViolation (m : Int) (f : StructField) (v : Value) (errs : ValidationErrors)
    (h : ∀ e ∈ errs, isRuleViolation e) : ∀ e ∈ MinCheck m f v errs, isRuleViolation e := by
  intro e he
  cases v with
  | int n =>
    simp only [MinCheck, MinCheckInt] at he
    split at he
    · rcases List.mem_append.mp he with h1 | h1
      · exact h e h1
      · exact ⟨_, List.mem_singleton.mp h1⟩
    · exact h e he
  | str s =>
    simp only [MinCheck, MinCheckInt] at he
    split at he
    · rcases List.mem_append.mp he with h1 | h1
      · exact h e h1
      · exact ⟨_, List.mem_singleton.mp h1⟩
    · exact h e he
  | other k h1 h2 => exact h e he

theorem MaxCheck_ruleViolation (m : Int) (f : StructField) (v : Value) (errs : ValidationErrors)
    (h : ∀ e ∈ errs, isRuleViolation e) : ∀ e ∈ MaxCheck m f v errs, isRuleViolation e := by
  intro e he
  cases v with
  | int n =>
    simp only [MaxCheck, MaxCheckInt] at he
    split at he
    · rcases List.mem_append.mp he with h1 | h1
      · exact h e h1
      · exact ⟨_, List.mem_singleton.mp h1⟩
    · exact h e he
  | str s =>
    simp only [MaxCheck, MaxCheckInt] at he
    split at he
    · rcases List.mem_append.mp he with h1 | h1
      · exact h e h1
      · exact ⟨_, List.mem_singleton.mp h1⟩
    · exact h e he
  | other k h1 h2 => exact h e he

theorem InCheck_ruleViolation (f : StructField) (v : Value) (res name : GoString)
    (errs : ValidationErrors) (h : ∀ e ∈ errs, isRuleViolation e) :
    ∀ e ∈ InCheck f v res name errs, isRuleViolation e := by
  intro e he
  simp only [InCheck, InCheckString, WriteInCheckError] at he
  split at he
  · rcases List.mem_append.mp he with h1 | h1
    · exact h e h1
    · exact ⟨_, List.mem_singleton.mp h1⟩
  · split at he
    · exact h e he
    · rcases List.mem_append.mp he with h1 | h1
      · exact h e h1
      · exact ⟨_, List.mem_singleton.mp h1⟩

/-- On a malformed clause the loop records `ErrInvalidValidatorSyntax` and returns. -/
theorem validateTags_cons_malformed (f : StructField) (v : Value) (bad : GoString)
    (post : List GoString) (errs : ValidationErrors) (hbad : isMalformed bad = true) :
    validateTags f v (bad :: post) errs = errs ++ [⟨GoError.ErrInvalidValidatorSyntax⟩] := by
  rw [validateTags]
  unfold isMalformed at hbad
  split
  · rfl
  · rename_i tag_word res heq
    rw [heq] at hbad
    simp only [Bool.and_eq_true, Bool.or_eq_true, decide_eq_true_eq, Option.isNone_iff_eq_none]
      at hbad
    obtain ⟨hw, hnone⟩ := hbad
    rw [hnone]
    rcases hw with (hw | hw) | hw
    · rw [if_pos hw]
    · split
      · rfl
      · rfl
    · split
      · rfl
      · split
        · rfl
        · rfl

/-- Clauses before the first malformed one are evaluated as if the annotation
ended there; the malformed one adds `ErrInvalidValidatorSyntax` and ends the
loop, whatever follows it. -/
theorem validateTags_first_malformed (f : StructField) (v : Value) (bad : GoString)
    (post : List GoString) (hbad : isMalformed bad = true) :
    ∀ (pre : List GoString) (errs : ValidationErrors), (∀ t ∈ pre, isMalformed t = false) →
      validateTags f v (pre ++ bad :: post) errs =
        validateTags f v pre errs ++ [⟨GoError.ErrInvalidValidatorSyntax⟩] := by
  intro pre
  induction pre with
  | nil =>
    intro errs _
    rw [List.nil_append, validateTags_cons_malformed f v bad post errs hbad, validateTags]
  | cons t pre ih =>
    intro errs hpre
    have ht : isMalformed t = false := hpre t (List.mem_cons_self _ _)
    have hrest : ∀ x ∈ pre, isMalformed x = false :=
      fun x hx => hpre x (List.mem_cons_of_mem _ hx)
    rw [List.cons_append, validateTags, validateTags]
    unfold isMalformed at ht
    split
    · rename_i heq
      rw [heq] at ht
      cases ht
    · rename_i tag_word res heq
      rw [heq] at ht
      simp only [Bool.and_eq_false_iff, Bool.or_eq_false_iff, decide_eq_false_iff_not,
        Option.isNone_eq_false_iff, Option.isSome_iff_exists] at ht
      split
      · rename_i hw
        rcases ht with ht | ⟨N, hN⟩
        · exact absurd hw ht.1.1
        · rw [hN]; exact ih _ hrest
      · split
        · rename_i hw
          rcases ht with ht | ⟨N, hN⟩
          · exact absurd hw ht.1.2
          · rw [hN]; exact ih _ hrest
        · split
          · rename_i hw
            rcases ht with ht | ⟨N, hN⟩
            · exact absurd hw ht.2
            · rw [hN]; exact ih _ hrest
          · split
            · exact ih _ hrest
            · exact ih _ hrest

/-- Well-formed clauses only ever add errors of violated rules. -/
theorem validateTags_ruleViolation (f : StructField) (v : Value) :
    ∀ (pre : List GoString) (errs : ValidationErrors), (∀ t ∈ pre, isMalformed t = false) →
      (∀ e ∈ errs, isRuleViolation e) → ∀ e ∈ validateTags f v pre errs, isRuleViolation e := by
  intro pre
  induction pre with
  | nil => intro errs _ herrs; simpa [validateTags] using herrs
  | cons t pre ih =>
    intro errs hpre herrs
    have ht : isMalformed t = false := hpre t (List.mem_cons_self _ _)
    have hrest : ∀ x ∈ pre, isMalformed x = false :=
      fun x hx => hpre x (List.mem_cons_of_mem _ hx)
    rw [validateTags]
    unfold isMalformed at ht
    split
    · rename_i heq
      rw [heq] at ht
      cases ht
    · rename_i tag_word res heq
      rw [heq] at ht
      simp only [Bool.and_eq_false_iff, Bool.or_eq_false_iff, decide_eq_false_iff_not,
        Option.isNone_eq_false_iff, Option.isSome_iff_exists] at ht
      split
      · rename_i hw
        rcases ht with ht | ⟨N, hN⟩
        · exact absurd hw ht.1.1
        · rw [hN]; exact ih _ hrest (MinCheck_ruleViolation _ _ _ _ herrs)
      · split
        · rename_i hw
          rcases ht with ht | ⟨N, hN⟩
          · exact absurd hw ht.1.2
          · rw [hN]; exact ih _ hrest (MaxCheck_ruleViolation _ _ _ _ herrs)
        · split
          · rename_i hw
            rcases ht with ht | ⟨N, hN⟩
            · exact absurd hw ht.2
            · rw [hN]
              exact ih _ hrest
                (MinCheck_ruleViolation _ _ _ _ (MaxCheck_ruleViolation _ _ _ _ herrs))
          · split
            · exact ih _ hrest (InCheck_ruleViolation _ _ _ _ _ herrs)
            · exact ih _ hrest herrs

/-- A list with a malformed clause splits at its first malformed clause. -/
theorem exists_first_malformed : ∀ (tags : List GoString),
    (∃ t ∈ tags, isMalformed t = true) →
    ∃ pre bad post, tags = pre ++ bad :: post ∧ (∀ t ∈ pre, isMalformed t = false) ∧
      isMalformed bad = true := by
  intro tags
  induction tags with
  | nil => rintro ⟨t, ht, _⟩; cases ht
  | cons x xs ih =>
    rintro ⟨t, ht, hbad⟩
    cases hx : isMalformed x with
    | true => exact ⟨[], x, xs, rfl, fun _ h => (by cases h), hx⟩
    | false =>
      have hxs : ∃ t ∈ xs, isMalformed t = true := by
        rcases List.mem_cons.mp ht with h | h
        · rw [h, hx] at hbad; cases hbad
        · exact ⟨t, h, hbad⟩
      obtain ⟨pre, bad, post, hsplit, hpre, hb⟩ := ih hxs
      refine ⟨x :: pre, bad, post, by rw [hsplit, List.cons_append], ?_, hb⟩
      intro y hy
      rcases List.mem_cons.mp hy with h | h
      · rw [h]; exact hx
      · exact hpre y h

/-! ## The rendering of a collection -/

theorem len_append (s t : GoString) : len (s ++ t) = len s + len t := by
  unfold len
  rw [List.map_append, List.sum_append]
  exact Int.ofNat_add _ _

theorem len_nonneg (s : GoString) : 0 ≤ len s := by
  unfold len
  exact Int.ofNat_nonneg _

/-- Cutting `s ++ t` at the byte length of `s` is on a character boundary and
gives `s`. -/
theorem sliceTo_append (t : GoString) :
    ∀ s : GoString, sliceTo (s ++ t) (s.map Char.utf8Size).sum = some s := by
  intro s
  induction s with
  | nil => cases t <;> rfl
  | cons c cs ih =>
    have hpos := Char.utf8Size_pos c
    obtain ⟨n, hn⟩ : ∃ n, c.utf8Size + (cs.map Char.utf8Size).sum = n + 1 :=
      ⟨c.utf8Size + (cs.map Char.utf8Size).sum - 1, by omega⟩
    simp only [List.map_cons, List.sum_cons, List.cons_append]
    rw [hn, sliceTo, if_pos (by omega)]
    have : n + 1 - c.utf8Size = (cs.map Char.utf8Size).sum := by omega
    rw [this, ih]
    rfl

theorem foldl_messages (sep : GoString) (v : ValidationErrors) :
    ∀ acc : GoString, v.foldl (fun err errs => err ++ errs.Err.Error ++ sep) acc =
      acc ++ (v.map (fun e => e.Err.Error ++ sep)).flatten := by
  induction v with
  | nil => intro acc; simp
  | cons e es ih =>
    intro acc
    rw [List.foldl_cons, ih]
    simp [List.append_assoc]

theorem flatten_messages (sep : GoString) (e : ValidationError) :
    ∀ es : ValidationErrors, ((e :: es).map (fun e => e.Err.Error ++ sep)).flatten =
      joinWith sep ((e :: es).map (fun e => e.Err.Error)) ++ sep := by
  intro es
  induction es generalizing e with
  | nil => simp [joinWith]
  | cons e2 es ih =>
    have h := ih e2
    simp only [List.map_cons, List.flatten_cons] at h ⊢
    rw [h]
    simp [joinWith, List.append_assoc]

/-- The loop of `Error()` leaves the messages, each followed by `" ,"`; the slice
removes the last `" ,"`. -/
theorem Error_eq_joinWith (v : ValidationErrors) :
    ValidationErrors.Error v = some (joinWith " ,".toList (v.map (fun e => e.Err.Error))) := by
  cases v with
  | nil => rfl
  | cons e es =>
    unfold ValidationErrors.Error
    simp only []
    rw [foldl_messages, List.nil_append, flatten_messages]
    have h2 : len " ,".toList = 2 := by decide
    have hlen := len_nonneg (joinWith " ,".toList ((e :: es).map (fun e => e.Err.Error)))
    rw [len_append, h2]
    rw [if_pos (by omega), if_neg (by omega)]
    have : (len (joinWith " ,".toList ((e :: es).map (fun e => e.Err.Error))) + 2 - 2).toNat
        = ((joinWith " ,".toList ((e :: es).map (fun e => e.Err.Error))).map Char.utf8Size).sum := by
      unfold len
      omega
    rw [this, sliceTo_append]

/-! ## The length of a string in bytes and in characters -/

theorem utf8Size_ascii (c : Char) (h : c.toNat < 128) : c.utf8Size = 1 := by
  unfold Char.utf8Size
  have : c.val ≤ UInt32.ofNatCore 127 (by decide) := by
    show c.val.toNat ≤ 127
    have : c.val.toNat = c.toNat := rfl
    omega
  exact if_pos this

theorem utf8Size_nonascii (c : Char) (h : 128 ≤ c.toNat) : 2 ≤ c.utf8Size := by
  unfold Char.utf8Size
  have : ¬ c.val ≤ UInt32.ofNatCore 127 (by decide) := by
    show ¬ c.val.toNat ≤ 127
    have : c.val.toNat = c.toNat := rfl
    omega
  rw [if_neg this]
  split
  · omega
  · split <;> omega

theorem length_le_len (s : GoString) : (s.length : Int) ≤ len s := by
  unfold len
  induction s with
  | nil => simp
  | cons c cs ih =>
    have := Char.utf8Size_pos c
    simp only [List.map_cons, List.sum_cons, List.length_cons]
    omega

theorem len_ascii (s : GoString) (h : ∀ c ∈ s, c.toNat < 128) : len s = (s.length : Int) := by
  unfold len
  induction s with
  | nil => simp
  | cons c cs ih =>
    have h1 := utf8Size_ascii c (h c (List.mem_cons_self _ _))
    have h2 := ih (fun x hx => h x (List.mem_cons_of_mem _ hx))
    simp only [List.map_cons, List.sum_cons, List.length_cons]
    omega

theorem len_nonascii (s : GoString) (h : ∀ c ∈ s, 128 ≤ c.toNat) :
    2 * (s.length : Int) ≤ len s := by
  unfold len
  induction s with
  | nil => simp
  | cons c cs ih =>
    have h1 := utf8Size_nonascii c (h c (List.mem_cons_self _ _))
    have h2 := ih (fun x hx => h x (List.mem_cons_of_mem _ hx))
    simp only [List.map_cons, List.sum_cons, List.length_cons]
    omega

theorem Cut_len (arg : GoString) :
    Cut ("len:".toList ++ arg) ":".toList = ("len".toList, arg, true) := by
  show Cut ('l' :: 'e' :: 'n' :: ':' :: arg) [':'] = (['l', 'e', 'n'], arg, true)
  simp [Cut, List.isPrefixOf]

theorem validateTags_cons_len (f : StructField) (v : Value) (tag arg : GoString) (N : Int)
    (tags : List GoString) (errs : ValidationErrors)
    (htag : TrimSpace tag = "len:".toList ++ arg) (harg : Atoi arg = some N) :
    validateTags f v (tag :: tags) errs =
      validateTags f v tags (MinCheck N f v (MaxCheck N f v errs)) := by
  rw [validateTags, htag, Cut_len]
  have h1 : ¬ ("len".toList = "min".toList) := by decide
  have h2 : ¬ ("len".toList = "max".toList) := by decide
  simp [harg, h1, h2]

/-! ## The loop, clause by clause -/

/-- The loop of `ValidateField` is the body on the first clause, then, unless the
body returned, the loop on the other clauses. -/
theorem validateTags_cons_step (f : StructField) (v : Value) (tag : GoString)
    (tags : List GoString) (errs : ValidationErrors) :
    validateTags f v (tag :: tags) errs =
      if (clauseStep f v tag errs).2 = true then validateTags f v tags (clauseStep f v tag errs).1
      else (clauseStep f v tag errs).1 := by
  rw [validateTags]
  unfold clauseStep
  split
  · simp
  · split
    · split <;> simp
    · split
      · split <;> simp
      · split
        · split <;> simp
        · split <;> simp

theorem clauseStep_continues (f : StructField) (v : Value) (tag : GoString)
    (errs : ValidationErrors) : (clauseStep f v tag errs).2 = !isMalformed tag := by
  unfold clauseStep isMalformed
  split
  · rfl
  · split
    · rename_i hw
      split <;> simp_all
    · split
      · rename_i hw
        split <;> simp_all
      · split
        · rename_i hw
          split <;> simp_all
        · split <;> simp_all

theorem clauseStep_append (f : StructField) (v : Value) (tag : GoString)
    (errs : ValidationErrors) :
    (clauseStep f v tag errs).1 = errs ++ (clauseStep f v tag []).1 := by
  unfold clauseStep
  split
  · simp
  · split
    · split
      · simp
      · exact MinCheck_append _ f v errs
    · split
      · split
        · simp
        · exact MaxCheck_append _ f v errs
      · split
        · split
          · simp
          · show MinCheck _ f v (MaxCheck _ f v errs) = errs ++ MinCheck _ f v (MaxCheck _ f v [])
            rw [MinCheck_append _ f v (MaxCheck _ f v errs), MinCheck_append _ f v (MaxCheck _ f v []),
              MaxCheck_append _ f v errs, List.append_assoc]
        · split
          · exact InCheck_append f v _ f.Name errs
          · simp

theorem MinCheck_length (m : Int) (f : StructField) (v : Value) :
    (MinCheck m f v []).length ≤ 1 := by
  cases v with
  | int n => simp only [MinCheck, MinCheckInt]; split <;> simp
  | str s => simp only [MinCheck, MinCheckInt]; split <;> simp
  | other k h1 h2 => simp [MinCheck]

theorem MaxCheck_length (m : Int) (f : StructField) (v : Value) :
    (MaxCheck m f v []).length ≤ 1 := by
  cases v with
  | int n => simp only [MaxCheck, MaxCheckInt]; split <;> simp
  | str s => simp only [MaxCheck, MaxCheckInt]; split <;> simp
  | other k h1 h2 => simp [MaxCheck]

theorem InCheck_length (f : StructField) (v : Value) (res name : GoString) :
    (InCheck f v res name []).length ≤ 1 := by
  simp only [InCheck, InCheckString, WriteInCheckError]
  split
  · simp
  · split <;> simp

/-- A value is not at once above and below a bound: `len` adds at most one error. -/
theorem LenCheck_eq (m : Int) (f : StructField) (v : Value) :
    MinCheck m f v (MaxCheck m f v []) = MaxCheck m f v (MinCheck m f v []) ∧
    (MinCheck m f v (MaxCheck m f v [])).length ≤ 1 := by
  cases v with
  | int n =>
    simp only [MinCheck, MaxCheck, MinCheckInt, MaxCheckInt]
    by_cases h1 : n > m
    · have h2 : ¬ n < m := by omega
      simp [h1, h2]
    · by_cases h2 : n < m
      · simp [h1, h2]
      · simp [h1, h2]
  | str s =>
    simp only [MinCheck, MaxCheck, MinCheckInt, MaxCheckInt]
    by_cases h1 : len s > m
    · have h2 : ¬ len s < m := by omega
      simp [h1, h2]
    · by_cases h2 : len s < m
      · simp [h1, h2]
      · simp [h1, h2]
  | other k h1 h2 => simp [MinCheck, MaxCheck]

theorem clauseStep_length (f : StructField) (v : Value) (tag : GoString) :
    (clauseStep f v tag []).1.length ≤ 1 := by
  unfold clauseStep
  split
  · simp
  · split
    · split
      · simp
      · exact MinCheck_length _ f v
    · split
      · split
        · simp
        · exact MaxCheck_length _ f v
      · split
        · split
          · simp
          · exact (LenCheck_eq _ f v).2
        · split
          · exact InCheck_length f v _ f.Name
          · simp

theorem clauseStep_unrecognized (f : StructField) (v : Value) (tag : GoString)
    (errs : ValidationErrors) (h : isUnrecognized tag = true) :
    clauseStep f v tag errs = (errs, true) := by
  unfold isUnrecognized at h
  unfold clauseStep
  split
  · rename_i heq
    rw [heq] at h
    cases h
  · rename_i tag_word res heq
    rw [heq] at h
    simp only [Bool.not_eq_true', Bool.or_eq_false_iff, decide_eq_false_iff_not] at h
    obtain ⟨⟨⟨h1, h2⟩, h3⟩, h4⟩ := h
    rw [if_neg h1, if_neg h2, if_neg h3, if_neg h4]

/-- The loop reads the field only for its name. -/
theorem clauseStep_name (f g : StructField) (v : Value) (tag : GoString)
    (errs : ValidationErrors) (h : f.Name = g.Name) :
    clauseStep f v tag errs = clauseStep g v tag errs := by
  have hmin : ∀ m e, MinCheck m f v e = MinCheck m g v e := by
    intro m e
    cases v <;> simp [MinCheck, h]
  have hmax : ∀ m e, MaxCheck m f v e = MaxCheck m g v e := by
    intro m e
    cases v <;> simp [MaxCheck, h]
  unfold clauseStep
  simp only [hmin, hmax, h, InCheck]

theorem validateTags_name (f g : StructField) (v : Value) (h : f.Name = g.Name) :
    ∀ (tags : List GoString) (errs : ValidationErrors),
      validateTags f v tags errs = validateTags g v tags errs := by
  intro tags
  induction tags with
  | nil => intro errs; rw [validateTags, validateTags]
  | cons t ts ih =>
    intro errs
    rw [validateTags_cons_step, validateTags_cons_step, clauseStep_name f g v t errs h, ih]

/-- Well-formed clauses never end the loop: the clauses after them are evaluated
on the collection they leave. -/
theorem validateTags_wellformed_append (f : StructField) (v : Value) (post : List GoString) :
    ∀ (pre : List GoString) (errs : ValidationErrors), (∀ t ∈ pre, isMalformed t = false) →
      validateTags f v (pre ++ post) errs = validateTags f v post (validateTags f v pre errs) := by
  intro pre
  induction pre with
  | nil => intro errs _; rw [List.nil_append, validateTags]
  | cons t pre ih =>
    intro errs hpre
    have ht : isMalformed t = false := hpre t (List.mem_cons_self _ _)
    have hrest : ∀ x ∈ pre, isMalformed x = false :=
      fun x hx => hpre x (List.mem_cons_of_mem _ hx)
    have hgo : (clauseStep f v t errs).2 = true := by
      rw [clauseStep_continues, ht]
      rfl
    rw [List.cons_append, validateTags_cons_step, validateTags_cons_step, if_pos hgo, if_pos hgo]
    exact ih _ hrest

theorem validateTags_cons_unrecognized (f : StructField) (v : Value) (t : GoString)
    (tags : List GoString) (errs : ValidationErrors) (h : isUnrecognized t = true) :
    validateTags f v (t :: tags) errs = validateTags f v tags errs := by
  rw [validateTags_cons_step, clauseStep_unrecognized f v t errs h]
  rfl

/-- A clause with an unknown name can be dropped from the list of clauses,
wherever it stands. -/
theorem validateTags_drop_unrecognized (f : StructField) (v : Value) (t : GoString)
    (post : List GoString) (h : isUnrecognized t = true) :
    ∀ (pre : List GoString) (errs : ValidationErrors),
      validateTags f v (pre ++ t :: post) errs = validateTags f v (pre ++ post) errs := by
  intro pre
  induction pre with
  | nil =>
    intro errs
    exact validateTags_cons_unrecognized f v t post errs h
  | cons x pre ih =>
    intro errs
    rw [List.cons_append, List.cons_append, validateTags_cons_step,
      validateTags_cons_step f v x (pre ++ post), ih]

theorem validateTags_all_unrecognized (f : StructField) (v : Value) :
    ∀ (tags : List GoString) (errs : ValidationErrors),
      (∀ t ∈ tags, isUnrecognized t = true) → validateTags f v tags errs = errs := by
  intro tags
  induction tags with
  | nil => intro errs _; rw [validateTags]
  | cons t ts ih =>
    intro errs h
    rw [validateTags_cons_unrecognized f v t ts errs (h t (List.mem_cons_self _ _))]
    exact ih errs (fun x hx => h x (List.mem_cons_of_mem _ hx))

/-- Every clause adds at most one error. -/
theorem validateTags_length (f : StructField) (v : Value) :
    ∀ (tags : List GoString) (errs : ValidationErrors),
      (validateTags f v tags errs).length ≤ errs.length + tags.length := by
  intro tags
  induction tags with
  | nil => intro errs; rw [validateTags]; simp
  | cons t ts ih =>
    intro errs
    have h1 := clauseStep_append f v t errs
    have h2 := clauseStep_length f v t
    have h3 : (clauseStep f v t errs).1.length ≤ errs.length + 1 := by
      rw [h1, List.length_append]
      omega
    rw [validateTags_cons_step]
    split
    · have := ih (clauseStep f v t errs).1
      simp only [List.length_cons]
      omega
    · simp only [List.length_cons]
      omega

theorem SplitLoop_ne_nil (sep : GoString) : ∀ (fuel : Nat) (s : GoString),
    1 ≤ (SplitLoop fuel s sep).length := by
  intro fuel s
  cases fuel with
  | zero => simp [SplitLoop]
  | succ n =>
    rw [SplitLoop]
    split <;> simp

theorem Split_length_pos (s : GoString) : 1 ≤ (Split s ", ".toList).length := by
  have hsep : ¬ (", ".toList = []) := by decide
  unfold Split
  rw [if_neg hsep]
  exact SplitLoop_ne_nil _ _ _

theorem clauses_pair (tagstr c1 c2 : GoString) (h : clauses tagstr = [c1, c2]) :
    ∃ t1 t2, Split tagstr ", ".toList = [t1, t2] ∧ TrimSpace t1 = c1 ∧ TrimSpace t2 = c2 := by
  unfold clauses at h
  cases hs : Split tagstr ", ".toList with
  | nil => rw [hs] at h; cases h
  | cons t1 rest =>
    rw [hs] at h
    cases rest with
    | nil => simp at h
    | cons t2 rest =>
      cases rest with
      | nil =>
        simp only [List.map_cons, List.map_nil, List.cons.injEq, and_true] at h
        exact ⟨t1, t2, rfl, h.1, h.2⟩
      | cons t3 rest => simp at h

theorem ValidateField_of_exported (f : StructField) (v : Value) (tagstr : GoString)
    (hexp : f.IsExported = true) (htag : f.Tag = some tagstr) :
    ValidateField f v [] = validateTags f v (Split tagstr ", ".toList) [] := by
  simp [ValidateField, htag, CheckExport, hexp]

/-! ## Splitting an annotation on `", "` -/

theorem isPrefixOf_sep_cons₂ (c c2 : Char) (rest : GoString) :
    List.isPrefixOf ", ".toList (c :: c2 :: rest) = (decide (c = ',') && decide (c2 = ' ')) := by
  show List.isPrefixOf [',', ' '] (c :: c2 :: rest) = _
  simp only [List.isPrefixOf, Bool.and_true]
  by_cases h1 : c = ','
  · by_cases h2 : c2 = ' '
    · simp [h1, h2]
    · have : ¬ (' ' = c2) := fun h => h2 h.symm
      simp [h1, h2, this]
  · have : ¬ (',' = c) := fun h => h1 h.symm
    simp [h1, this]

theorem isPrefixOf_sep_single (c : Char) : List.isPrefixOf ", ".toList [c] = false := by
  show List.isPrefixOf [',', ' '] [c] = false
  simp [List.isPrefixOf]

/-- The recursion of `Split`: cut at the first separator, split the rest. -/
theorem Split_unfold (s sep : GoString) (hsep : sep ≠ []) :
    Split s sep =
      match Cut s sep with
      | (before, after, true) => before :: Split after sep
      | (_, _, false) => [s] := by
  unfold Split
  simp only [if_neg hsep]
  cases hl : s.length with
  | zero =>
    have hs : s = [] := List.length_eq_zero.mp hl
    subst hs
    simp [SplitLoop, Cut, hsep]
  | succ n =>
    rw [SplitLoop]
    split
    · rename_i b a heq
      have hlt := Cut_after_length sep hsep s b a heq
      rw [SplitLoop_fuel sep hsep n a.length a (by omega) (Nat.le_refl _)]
    · rfl

/-- A text without a comma has no separator `", "`. -/
theorem Cut_sep_not_found : ∀ s : GoString, ',' ∉ s →
    Cut s ", ".toList = (s, [], false) := by
  intro s
  induction s with
  | nil => intro _; rfl
  | cons c cs ih =>
    intro h
    have hc : ¬ (c = ',') := fun e => h (e ▸ List.mem_cons_self _ _)
    have hcs : ',' ∉ cs := fun e => h (List.mem_cons_of_mem _ e)
    have hpre : List.isPrefixOf ", ".toList (c :: cs) = false := by
      cases cs with
      | nil => exact isPrefixOf_sep_single c
      | cons c2 rest => rw [isPrefixOf_sep_cons₂]; simp [hc]
    rw [Cut, hpre, ih hcs]
    rfl

theorem Split_no_comma (s : GoString) (h : ',' ∉ s) : Split s ", ".toList = [s] := by
  rw [Split_unfold s _ (by decide), Cut_sep_not_found s h]

/-- The first separator of `a ++ ", " ++ b` is the first separator of `a` when `a`
has one. -/
theorem Cut_append_sep_found (b : GoString) : ∀ (a before after : GoString),
    Cut a ", ".toList = (before, after, true) →
    Cut (a ++ ", ".toList ++ b) ", ".toList = (before, after ++ ", ".toList ++ b, true) := by
  intro a
  induction a with
  | nil => intro before after h; simp [Cut] at h
  | cons c cs ih =>
    intro before after h
    cases cs with
    | nil =>
      rw [Cut, isPrefixOf_sep_single] at h
      simp [Cut] at h
    | cons c2 rest =>
      rw [Cut, isPrefixOf_sep_cons₂] at h
      show Cut (c :: c2 :: (rest ++ ", ".toList ++ b)) ", ".toList = _
      rw [Cut, isPrefixOf_sep_cons₂]
      by_cases hp : (decide (c = ',') && decide (c2 = ' ')) = true
      · rw [if_pos hp] at h
        rw [if_pos hp]
        injection h with h1 h2
        injection h2 with h3 _
        rw [← h1, ← h3]
        rfl
      · rw [if_neg hp] at h
        rw [if_neg hp]
        split at h
        · rename_i b2 a2 heq
          injection h with h1 h2
          injection h2 with h3 _
          have := ih b2 a2 heq
          rw [List.cons_append, List.cons_append] at this
          rw [this, ← h1, ← h3]
        · injection h with _ h2
          injection h2 with _ h4
          cases h4

theorem Cut_not_found_eq : ∀ (a : GoString) (sep : GoString),
    (Cut a sep).2.2 = false → Cut a sep = (a, [], false) := by
  intro a sep
  induction a with
  | nil =>
    intro h
    rw [Cut] at h ⊢
    split at h
    · cases h
    · rename_i hsep
      rw [if_neg hsep]
  | cons c cs ih =>
    intro h
    rw [Cut] at h ⊢
    split at h
    · cases h
    · rename_i hp
      rw [if_neg hp]
      split at h
      · cases h
      · rfl

/-- The first separator of `a ++ ", " ++ b` is the one written when `a` has none. -/
theorem Cut_append_sep_not_found (b : GoString) : ∀ a : GoString,
    (Cut a ", ".toList).2.2 = false →
    Cut (a ++ ", ".toList ++ b) ", ".toList = (a, b, true) := by
  intro a
  induction a with
  | nil =>
    intro _
    show Cut (',' :: ' ' :: b) [',', ' '] = ([], b, true)
    simp [Cut, List.isPrefixOf]
  | cons c cs ih =>
    intro h
    cases cs with
    | nil =>
      show Cut (c :: ',' :: ' ' :: b) ", ".toList = ([c], b, true)
      rw [Cut, isPrefixOf_sep_cons₂]
      have hp : ¬ ((decide (c = ',') && decide (',' = ' ')) = true) := by simp
      rw [if_neg hp]
      have : Cut (',' :: ' ' :: b) ", ".toList = ([], b, true) := by
        show Cut (',' :: ' ' :: b) [',', ' '] = ([], b, true)
        simp [Cut, List.isPrefixOf]
      rw [this]
    | cons c2 rest =>
      rw [Cut, isPrefixOf_sep_cons₂] at h
      show Cut (c :: c2 :: (rest ++ ", ".toList ++ b)) ", ".toList = _
      rw [Cut, isPrefixOf_sep_cons₂]
      by_cases hp : (decide (c = ',') && decide (c2 = ' ')) = true
      · rw [if_pos hp] at h
        cases h
      · rw [if_neg hp] at h
        rw [if_neg hp]
        have hrec : (Cut (c2 :: rest) ", ".toList).2.2 = false := by
          split at h
          · cases h
          · rename_i heq
            rw [heq]
        have := ih hrec
        rw [List.cons_append, List.cons_append] at this
        rw [this]

/-- The clauses of `a ++ ", " ++ b` are the clauses of `a` followed by those of `b`. -/
theorem Split_append_sep (b : GoString) : ∀ (n : Nat) (a : GoString), a.length ≤ n →
    Split (a ++ ", ".toList ++ b) ", ".toList = Split a ", ".toList ++ Split b ", ".toList := by
  have hsep : ", ".toList ≠ [] := by decide
  intro n
  induction n with
  | zero =>
    intro a ha
    have hs : a = [] := List.length_eq_zero.mp (Nat.le_zero.mp ha)
    subst hs
    rw [Split_unfold _ _ hsep, Cut_append_sep_not_found b [] rfl]
    rfl
  | succ n ih =>
    intro a ha
    rw [Split_unfold (a ++ ", ".toList ++ b) _ hsep, Split_unfold a _ hsep]
    cases hcut : Cut a ", ".toList with
    | mk before rest =>
      cases rest with
      | mk after found =>
        cases found with
        | true =>
          have hlt := Cut_after_length _ hsep a before after hcut
          rw [Cut_append_sep_found b a before after hcut]
          simp only [List.cons_append]
          rw [ih after (by omega)]
        | false =>
          have hnf : (Cut a ", ".toList).2.2 = false := by rw [hcut]
          rw [Cut_append_sep_not_found b a hnf]
          have := Cut_not_found_eq a _ hnf
          rw [hcut] at this
          injection this with h1 _
          rw [h1]
          rfl

theorem list_split_at_index {α : Type} (l : List α) (k : Nat) (x : α) (h : l[k]? = some x) :
    l = l.take k ++ x :: l.drop (k + 1) := by
  obtain ⟨hk, hx⟩ := List.getElem?_eq_some.mp h
  have := List.drop_eq_getElem_cons hk
  rw [hx] at this
  rw [← this, List.take_append_drop]

theorem count_invalid_ruleViolations (l : ValidationErrors) (h : ∀ e ∈ l, isRuleViolation e) :
    l.count ⟨GoError.ErrInvalidValidatorSyntax⟩ = 0 := by
  apply List.count_eq_zero_of_not_mem
  intro hmem
  obtain ⟨text, ht⟩ := h _ hmem
  cases ht

/-- No field contributes `ErrInvalidValidatorSyntax` twice. -/
theorem ValidateField_count_invalid (f : StructField) (v : Value) :
    (ValidateField f v []).count ⟨GoError.ErrInvalidValidatorSyntax⟩ ≤ 1 := by
  cases htag : f.Tag with
  | none => simp [ValidateField, htag]
  | some tagstr =>
    cases hexp : f.IsExported with
    | false => simp [ValidateField, htag, CheckExport, hexp]
    | true =>
      rw [ValidateField_of_exported f v tagstr hexp htag]
      by_cases hbad : ∃ t ∈ Split tagstr ", ".toList, isMalformed t = true
      · obtain ⟨pre, bad, post, hsplit, hpre, hb⟩ := exists_first_malformed _ hbad
        rw [hsplit, validateTags_first_malformed f v bad post hb pre [] hpre, List.count_append,
          count_invalid_ruleViolations _
            (validateTags_ruleViolation f v pre [] hpre (fun _ h => (by cases h)))]
        simp
      · have hall : ∀ t ∈ Split tagstr ", ".toList, isMalformed t = false := by
          intro t ht
          cases hm : isMalformed t with
          | false => rfl
          | true => exact absurd ⟨t, ht, hm⟩ hbad
        rw [count_invalid_ruleViolations _
          (validateTags_ruleViolation f v _ [] hall (fun _ h => (by cases h)))]
        exact Nat.zero_le _

/-! ## Schedules and interleavings -/

theorem stepTask_of_pending : ∀ (tasks : List ValidationErrors) (i : Nat) (e : ValidationError)
    (es errs : ValidationErrors), tasks[i]? = some (e :: es) →
    stepTask i tasks errs = (tasks.set i es, errs ++ [e]) := by
  intro tasks
  induction tasks with
  | nil => intro i e es errs h; simp at h
  | cons t ts ih =>
    intro i e es errs h
    cases i with
    | zero =>
      simp only [List.getElem?_cons_zero, Option.some.injEq] at h
      subst h
      rfl
    | succ i =>
      simp only [List.getElem?_cons_succ] at h
      simp only [stepTask, ih i e es errs h, List.set_cons_succ]

theorem stepTask_errs : ∀ (tasks : List ValidationErrors) (i : Nat) (errs : ValidationErrors),
    (stepTask i tasks errs).1 = (stepTask i tasks []).1 ∧
    (stepTask i tasks errs).2 = errs ++ (stepTask i tasks []).2 := by
  intro tasks
  induction tasks with
  | nil => intro i errs; cases i <;> simp [stepTask]
  | cons t ts ih =>
    intro i errs
    cases i with
    | zero => cases t <;> simp [stepTask]
    | succ i =>
      have := ih i errs
      simp only [stepTask]
      exact ⟨by rw [this.1], this.2⟩

theorem runTasks_errs : ∀ (sched : List Nat) (tasks : List ValidationErrors)
    (errs : ValidationErrors), runTasks sched tasks errs = errs ++ runTasks sched tasks [] := by
  intro sched
  induction sched with
  | nil => intro tasks errs; simp [runTasks]
  | cons i sched ih =>
    intro tasks errs
    rw [runTasks, runTasks, (stepTask_errs tasks i errs).1, (stepTask_errs tasks i errs).2,
      ih _ (errs ++ _), ih _ (stepTask i tasks []).2, List.append_assoc]

/-- Every interleaving is the result of the tasks under some schedule. -/
theorem Interleaving_scheduled (tasks : List ValidationErrors) (r : ValidationErrors)
    (h : Interleaving tasks r) : ∃ sched : List Nat, runTasks sched tasks [] = r := by
  induction h with
  | done tasks h =>
    exact ⟨[], by rw [runTasks, List.nil_append]; exact flatten_eq_nil_of_forall tasks h⟩
  | step tasks i e es rest h _ ih =>
    obtain ⟨sched, hs⟩ := ih
    refine ⟨i :: sched, ?_⟩
    rw [runTasks, stepTask_of_pending tasks i e es [] h]
    show runTasks sched (tasks.set i es) ([] ++ [e]) = e :: rest
    rw [runTasks_errs, hs]
    rfl

theorem stepTask_no_pending : ∀ (tasks : List ValidationErrors) (i : Nat)
    (errs : ValidationErrors), (tasks[i]? = none ∨ tasks[i]? = some []) →
    stepTask i tasks errs = (tasks, errs) := by
  intro tasks
  induction tasks with
  | nil => intro i errs _; cases i <;> rfl
  | cons t ts ih =>
    intro i errs h
    cases i with
    | zero =>
      simp only [List.getElem?_cons_zero, Option.some.injEq] at h
      rcases h with h | h
      · cases h
      · subst h
        rfl
    | succ i =>
      simp only [List.getElem?_cons_succ] at h
      simp only [stepTask, ih i errs h]

/-- Running the tasks one after the other, in declaration order, is an
interleaving. -/
theorem Interleaving_sequential : ∀ (tasks finished : List ValidationErrors),
    (∀ t ∈ finished, t = []) → Interleaving (finished ++ tasks) tasks.flatten := by
  intro tasks
  induction tasks with
  | nil =>
    intro finished h
    rw [List.append_nil]
    exact Interleaving.done finished h
  | cons t ts ih =>
    intro finished h
    induction t with
    | nil =>
      have h2 : ∀ x ∈ finished ++ [[]], x = [] := by
        intro x hx
        rcases List.mem_append.mp hx with hx | hx
        · exact h x hx
        · exact List.mem_singleton.mp hx
      have := ih (finished ++ [[]]) h2
      rw [List.append_assoc] at this
      simpa using this
    | cons e es ihes =>
      have hget : (finished ++ (e :: es) :: ts)[finished.length]? = some (e :: es) := by
        rw [List.getElem?_append_right (Nat.le_refl _)]
        simp
      have hset : (finished ++ (e :: es) :: ts).set finished.length es = finished ++ es :: ts := by
        simp
      have hrest : Interleaving ((finished ++ (e :: es) :: ts).set finished.length es)
          (es ++ ts.flatten) := by
        rw [hset]
        simpa using ihes
      exact Interleaving.step _ finished.length e es _ hget hrest

/-- The result of the tasks under a schedule is an interleaving of their appends. -/
theorem runTasks_interleaving : ∀ (sched : List Nat) (tasks : List ValidationErrors),
    Interleaving tasks (runTasks sched tasks []) := by
  intro sched
  induction sched with
  | nil =>
    intro tasks
    rw [runTasks, List.nil_append]
    exact Interleaving_sequential tasks [] (fun _ h => (by cases h))
  | cons i sched ih =>
    intro tasks
    rw [runTasks]
    cases hget : tasks[i]? with
    | none =>
      rw [stepTask_no_pending tasks i [] (Or.inl hget)]
      exact ih tasks
    | some t =>
      cases t with
      | nil =>
        rw [stepTask_no_pending tasks i [] (Or.inr hget)]
        exact ih tasks
      | cons e es =>
        rw [stepTask_of_pending tasks i e es [] hget]
        show Interleaving tasks (runTasks sched (tasks.set i es) ([] ++ [e]))
        rw [runTasks_errs]
        exact Interleaving.step tasks i e es _ hget (ih _)

theorem Validate_collection (sched : List Nat) (fields : List Field) :
    (Validate sched (Any.struct fields)).collection =
      runTasks sched (fields.map taskAppends) [] := by
  rw [Validate_struct_eq]
  split
  · rename_i h
    rw [List.length_eq_zero.mp h]
    rfl
  · rfl

/-! ## The claims -/

/-- C1: `Validate` returns `ErrNotStruct` for every value of a kind other than
`Struct` (a pointer to a struct included), but for the untyped nil it panics:
`reflect.TypeOf(nil)` is the nil type and `Kind()` is called on it. -/
theorem Validate_non_struct (sched : List Nat) :
    Validate sched Any.nil = Outcome.panic ∧
    ∀ (k : Kind) (h : k ≠ Kind.Struct), Validate sched (Any.other k h) = Outcome.ErrNotStruct := by
  refine ⟨rfl, ?_⟩
  intro k h
  simp [Validate, TypeOfKind, h]

/-- C2: for an exported field of kind string or int whose annotation is the
single clause `min:N`, with `N` a text `strconv.Atoi` reads as the integer `N`,
the field yields no error when its measure is at least `N` and exactly the
error "field <name> is less than <N>" when it is less; with the single clause
`max:N` it yields no error when the measure is at most `N` and exactly the
error "field <name> is greater than <N>" when it is greater.  With the
annotation `min:2, max:5` a string field yields the less-than-2 error below
length 2, the greater-than-5 error above length 5 and no error in between. -/
theorem min_max_inclusive (name : GoString) (v : Value) (tagMin tagMax arg : GoString) (N : Int)
    (hkind : v.Kind = Kind.String ∨ v.Kind = Kind.Int)
    (harg : Atoi arg = some N)
    (hmin : clauses tagMin = ["min:".toList ++ arg])
    (hmax : clauses tagMax = ["max:".toList ++ arg]) :
    ValidateField ⟨name, [], some tagMin⟩ v [] =
      (if measure v < N then
        [⟨GoError.New ("field ".toList ++ name ++ " is less than ".toList ++ Itoa N)⟩]
       else []) ∧
    ValidateField ⟨name, [], some tagMax⟩ v [] =
      (if measure v > N then
        [⟨GoError.New ("field ".toList ++ name ++ " is greater than ".toList ++ Itoa N)⟩]
       else []) ∧
    ∀ s : GoString, ValidateField ⟨name, [], some "min:2, max:5".toList⟩ (Value.str s) [] =
      (if len s < 2 then
        [⟨GoError.New ("field ".toList ++ name ++ " is less than 2".toList)⟩]
       else if len s > 5 then
        [⟨GoError.New ("field ".toList ++ name ++ " is greater than 5".toList)⟩]
       else []) := by
  obtain ⟨t1, hs1, ht1⟩ := clauses_singleton _ _ hmin
  obtain ⟨t2, hs2, ht2⟩ := clauses_singleton _ _ hmax
  refine ⟨?_, ?_, ?_⟩
  · rw [ValidateField_exported, hs1, validateTags_cons_min _ _ _ _ _ _ _ ht1 harg, validateTags]
    cases v with
    | int n => simp [MinCheck, MinCheckInt, measure]
    | str s => simp [MinCheck, MinCheckInt, measure]
    | other k h1 h2 =>
      rcases hkind with h | h
      · exact absurd h h2
      · exact absurd h h1
  · rw [ValidateField_exported, hs2, validateTags_cons_max _ _ _ _ _ _ _ ht2 harg, validateTags]
    cases v with
    | int n => simp [MaxCheck, MaxCheckInt, measure]
    | str s => simp [MaxCheck, MaxCheckInt, measure]
    | other k h1 h2 =>
      rcases hkind with h | h
      · exact absurd h h2
      · exact absurd h h1
  · intro s
    have hsplit : Split "min:2, max:5".toList ", ".toList = ["min:2".toList, "max:5".toList] := by
      decide
    have a2 : Atoi "2".toList = some 2 := by decide
    have a5 : Atoi "5".toList = some 5 := by decide
    have i2 : Itoa 2 = "2".toList := by decide
    have i5 : Itoa 5 = "5".toList := by decide
    rw [ValidateField_exported, hsplit,
      validateTags_cons_min _ _ "min:2".toList "2".toList 2 _ _ (by decide) a2,
      validateTags_cons_max _ _ "max:5".toList "5".toList 5 _ _ (by decide) a5, validateTags]
    simp only [MinCheck, MaxCheck, MinCheckInt, MaxCheckInt, i2, i5]
    by_cases h2 : len s < 2
    · have h5 : ¬ len s > 5 := by omega
      simp [h2, h5]
    · by_cases h5 : len s > 5
      · simp [h2, h5]
      · simp [h2, h5]

theorem min_max_inclusive_witness :
    ((Value.str "o".toList).Kind = Kind.String ∨ (Value.str "o".toList).Kind = Kind.Int) ∧
    Atoi "2".toList = some 2 ∧
    clauses "min:2".toList = ["min:".toList ++ "2".toList] ∧
    clauses " max:2".toList = ["max:".toList ++ "2".toList] ∧
    ValidateField ⟨"Name".toList, [], some "min:2".toList⟩ (Value.str "o".toList) [] =
      (if measure (Value.str "o".toList) < 2 then
        [⟨GoError.New ("field ".toList ++ "Name".toList ++ " is less than ".toList ++ Itoa 2)⟩]
       else []) :=
  ⟨by decide, by decide, by decide, by decide,
    (min_max_inclusive "Name".toList (Value.str "o".toList) "min:2".toList " max:2".toList
      "2".toList 2 (by decide) (by decide) (by decide) (by decide)).1⟩

/-- C3, as the code has it: for the field `Age int` annotated `len:3` and holding
5, `Validate` returns, under every schedule, the collection of exactly one
error, the greater-than-3 error. -/
theorem Validate_len3_age5 (sched : List Nat) :
    Validate sched ageInput =
      Outcome.errs [⟨GoError.New "field Age is greater than 3".toList⟩] := by
  have htasks : ([⟨⟨"Age".toList, [], some "len:3".toList⟩, .int 5⟩] : List Field).map taskAppends
      = [[⟨GoError.New "field Age is greater than 3".toList⟩]] := by decide
  have h := runTasks_perm sched
    [[(⟨GoError.New "field Age is greater than 3".toList⟩ : ValidationError)]] []
  have h2 : runTasks sched
      [[(⟨GoError.New "field Age is greater than 3".toList⟩ : ValidationError)]] []
      = [⟨GoError.New "field Age is greater than 3".toList⟩] := by
    simpa using h
  rw [ageInput, Validate_struct_eq, htasks, h2]
  rfl

/-- C3, as stated, fails: for `Age int` annotated `len:3` and holding 5 the
collection returned has one error, the greater-than-3 error, and not two. -/
theorem Validate_len3_age5_not_two :
    Validate [] ageInput = Outcome.errs [⟨GoError.New "field Age is greater than 3".toList⟩] ∧
    ¬ ∃ e1 e2 : ValidationError, Validate [] ageInput = Outcome.errs [e1, e2] := by
  have h : Validate [] ageInput =
      Outcome.errs [⟨GoError.New "field Age is greater than 3".toList⟩] := by decide
  refine ⟨h, ?_⟩
  rintro ⟨e1, e2, h2⟩
  rw [h] at h2
  cases h2

/-- C4: for an exported field of kind string or int whose annotation is the
single clause `in:L`, the field yields no error exactly when `L` is not empty
and the text of the value (the string, or the integer in base 10) equals one
of the pieces of `L` between `","`; otherwise it yields exactly the error
"value of field <name> is not in <L>".  An empty `L` fails for every value,
`in:A,B,C` accepts `"B"` and rejects `"D"`. -/
theorem in_single_clause (name : GoString) (v : Value) (tagstr L : GoString)
    (hkind : v.Kind = Kind.String ∨ v.Kind = Kind.Int)
    (hcl : clauses tagstr = ["in:".toList ++ L]) :
    ValidateField ⟨name, [], some tagstr⟩ v [] =
      (if L ≠ [] ∧ valueText v ∈ Split L ",".toList then []
       else [⟨GoError.New ("value of field ".toList ++ name ++ " is not in ".toList ++ L)⟩]) ∧
    ValidateField ⟨name, [], some "in:".toList⟩ v [] =
      [⟨GoError.New ("value of field ".toList ++ name ++ " is not in ".toList)⟩] ∧
    ValidateField ⟨name, [], some "in:A,B,C".toList⟩ (Value.str "B".toList) [] = [] ∧
    ValidateField ⟨name, [], some "in:A,B,C".toList⟩ (Value.str "D".toList) [] =
      [⟨GoError.New ("value of field ".toList ++ name ++ " is not in A,B,C".toList)⟩] := by
  have key : ∀ (w : Value) (tag : GoString) (M : GoString),
      (w.Kind = Kind.String ∨ w.Kind = Kind.Int) → clauses tag = ["in:".toList ++ M] →
      ValidateField ⟨name, [], some tag⟩ w [] =
        (if M ≠ [] ∧ valueText w ∈ Split M ",".toList then []
         else [⟨GoError.New ("value of field ".toList ++ name ++ " is not in ".toList ++ M)⟩]) := by
    intro w tag M hk hc
    obtain ⟨t, hs, ht⟩ := clauses_singleton _ _ hc
    rw [ValidateField_exported, hs, validateTags_cons_in _ _ _ _ _ _ ht, validateTags]
    have hval : InCheck ⟨name, [], some tag⟩ w M name [] = InCheckString (valueText w) M name [] := by
      cases w with
      | int n => rfl
      | str s => rfl
      | other k h1 h2 => rfl
    rw [hval]
    unfold InCheckString WriteInCheckError
    by_cases hM : M = []
    · simp [hM]
    · by_cases hmem : valueText w ∈ Split M ",".toList
      · simp [hM, hmem]
      · simp [hM, hmem]
  refine ⟨key v tagstr L hkind hcl, ?_, ?_, ?_⟩
  · have h := key v "in:".toList [] hkind (by decide)
    simpa using h
  · have h := key (Value.str "B".toList) "in:A,B,C".toList "A,B,C".toList (Or.inl rfl) (by decide)
    rw [h]
    have hmem : valueText (Value.str "B".toList) ∈ Split "A,B,C".toList ",".toList := by decide
    have hne : "A,B,C".toList ≠ [] := by decide
    rw [if_pos ⟨hne, hmem⟩]
  · have h := key (Value.str "D".toList) "in:A,B,C".toList "A,B,C".toList (Or.inl rfl) (by decide)
    rw [h]
    have hmem : ¬ valueText (Value.str "D".toList) ∈ Split "A,B,C".toList ",".toList := by decide
    rw [if_neg (fun hc => hmem hc.2)]
    have e : " is not in ".toList ++ "A,B,C".toList = " is not in A,B,C".toList := by decide
    rw [← e, List.append_assoc]

theorem in_single_clause_witness :
    ((Value.int 12).Kind = Kind.String ∨ (Value.int 12).Kind = Kind.Int) ∧
    clauses "in:7,12 ".toList = ["in:".toList ++ "7,12".toList] ∧
    ValidateField ⟨"Code".toList, [], some "in:7,12 ".toList⟩ (Value.int 12) [] =
      (if "7,12".toList ≠ [] ∧ valueText (Value.int 12) ∈ Split "7,12".toList ",".toList then []
       else [⟨GoError.New
          ("value of field ".toList ++ "Code".toList ++ " is not in ".toList ++ "7,12".toList)⟩]) :=
  ⟨by decide, by decide,
    (in_single_clause "Code".toList (Value.int 12) "in:7,12 ".toList "7,12".toList
      (by decide) (by decide)).1⟩

/-- C5: `MinCheck` and `MaxCheck` leave the collection as it is for a field that
is neither a string nor an integer, but `InCheck` does not: it compares the
empty string with the list, so an exported `bool` field annotated `in:A,B`
yields the error "value of field Flag is not in A,B" (and one annotated `in:`
yields an error too), while `min:1, max:0, len:3` yields none. -/
theorem InCheck_other_kind :
    ValidateField ⟨"Flag".toList, [], some "in:A,B".toList⟩
        (Value.other Kind.Bool (by decide) (by decide)) [] =
      [⟨GoError.New "value of field Flag is not in A,B".toList⟩] ∧
    ValidateField ⟨"Flag".toList, [], some "in:".toList⟩
        (Value.other Kind.Bool (by decide) (by decide)) [] =
      [⟨GoError.New "value of field Flag is not in ".toList⟩] ∧
    ValidateField ⟨"Flag".toList, [], some "min:1, max:0, len:3".toList⟩
        (Value.other Kind.Bool (by decide) (by decide)) [] = [] ∧
    ∀ (f : StructField) (k : Kind) (h1 : k ≠ Kind.Int) (h2 : k ≠ Kind.String) (n : Int)
      (res name : GoString) (errs : ValidationErrors),
      MinCheck n f (Value.other k h1 h2) errs = errs ∧
      MaxCheck n f (Value.other k h1 h2) errs = errs ∧
      InCheck f (Value.other k h1 h2) res name errs = InCheckString [] res name errs := by
  refine ⟨by decide, by decide, by decide, ?_⟩
  intro f k h1 h2 n res name errs
  exact ⟨rfl, rfl, rfl⟩

/-- C6, as the code has it: for an exported field whose annotation has a malformed
clause, the annotation splits at its first malformed clause; the field
contributes the errors of the clauses before it, all of them errors of violated
rules, followed by exactly one `ErrInvalidValidatorSyntax`; no clause after the
first malformed one is evaluated. -/
theorem malformed_clause_syntax_error (name : GoString) (v : Value) (tagstr : GoString)
    (hbad : ∃ t ∈ Split tagstr ", ".toList, isMalformed t = true) :
    ∃ pre bad post, Split tagstr ", ".toList = pre ++ bad :: post ∧
      (∀ t ∈ pre, isMalformed t = false) ∧ isMalformed bad = true ∧
      ValidateField ⟨name, [], some tagstr⟩ v [] =
        validateTags ⟨name, [], some tagstr⟩ v pre [] ++ [⟨GoError.ErrInvalidValidatorSyntax⟩] ∧
      (∀ e ∈ validateTags ⟨name, [], some tagstr⟩ v pre [], isRuleViolation e) ∧
      (pre = [] → ValidateField ⟨name, [], some tagstr⟩ v [] =
        [⟨GoError.ErrInvalidValidatorSyntax⟩]) := by
  obtain ⟨pre, bad, post, hsplit, hpre, hb⟩ := exists_first_malformed _ hbad
  have hval : ValidateField ⟨name, [], some tagstr⟩ v [] =
      validateTags ⟨name, [], some tagstr⟩ v pre [] ++ [⟨GoError.ErrInvalidValidatorSyntax⟩] := by
    rw [ValidateField_exported, hsplit]
    exact validateTags_first_malformed _ v bad post hb pre [] hpre
  refine ⟨pre, bad, post, hsplit, hpre, hb, hval, ?_, ?_⟩
  · exact validateTags_ruleViolation _ v pre [] hpre (fun _ h => (by cases h))
  · intro h0
    rw [hval, h0, validateTags]
    rfl

theorem malformed_clause_syntax_error_witness :
    (∃ t ∈ Split "min:5, badtag, max:0".toList ", ".toList, isMalformed t = true) ∧
    ∃ pre bad post, Split "min:5, badtag, max:0".toList ", ".toList = pre ++ bad :: post ∧
      (∀ t ∈ pre, isMalformed t = false) ∧ isMalformed bad = true ∧
      ValidateField ⟨"Name".toList, [], some "min:5, badtag, max:0".toList⟩
          (Value.str "o".toList) [] =
        validateTags ⟨"Name".toList, [], some "min:5, badtag, max:0".toList⟩
          (Value.str "o".toList) pre [] ++ [⟨GoError.ErrInvalidValidatorSyntax⟩] ∧
      (∀ e ∈ validateTags ⟨"Name".toList, [], some "min:5, badtag, max:0".toList⟩
          (Value.str "o".toList) pre [], isRuleViolation e) ∧
      (pre = [] → ValidateField ⟨"Name".toList, [], some "min:5, badtag, max:0".toList⟩
          (Value.str "o".toList) [] = [⟨GoError.ErrInvalidValidatorSyntax⟩]) :=
  ⟨⟨"badtag".toList, by decide, by decide⟩,
    malformed_clause_syntax_error "Name".toList (Value.str "o".toList)
      "min:5, badtag, max:0".toList ⟨"badtag".toList, by decide, by decide⟩⟩

/-- C6, as stated, fails: the exported string field `Name` annotated
`min:5, badtag` and holding `"o"` has a malformed clause, and contributes two
errors, the less-than-5 error of the rule before it and then
`ErrInvalidValidatorSyntax`. -/
theorem malformed_clause_after_violated_rule :
    (∃ t ∈ Split "min:5, badtag".toList ", ".toList, isMalformed t = true) ∧
    ValidateField ⟨"Name".toList, [], some "min:5, badtag".toList⟩ (Value.str "o".toList) [] =
      [⟨GoError.New "field Name is less than 5".toList⟩, ⟨GoError.ErrInvalidValidatorSyntax⟩] ∧
    ValidateField ⟨"Name".toList, [], some "min:5, badtag".toList⟩ (Value.str "o".toList) [] ≠
      [⟨GoError.ErrInvalidValidatorSyntax⟩] :=
  ⟨⟨"badtag".toList, by decide, by decide⟩, by decide, by decide⟩

/-- C7: a field that is not exported and carries a `validate` annotation
contributes exactly one error, `ErrValidateForUnexportedFields`, whatever the
annotation, the kind and the value. -/
theorem ValidateField_unexported (f : StructField) (v : Value) (tagstr : GoString)
    (hexp : f.IsExported = false) (htag : f.Tag = some tagstr) :
    ValidateField f v [] = [⟨GoError.ErrValidateForUnexportedFields⟩] := by
  simp [ValidateField, htag, CheckExport, hexp]

theorem ValidateField_unexported_witness :
    (StructField.IsExported ⟨"age".toList, "main".toList, some "min:1, nocolon".toList⟩ = false ∧
      (StructField.mk "age".toList "main".toList (some "min:1, nocolon".toList)).Tag
        = some "min:1, nocolon".toList) ∧
    ValidateField ⟨"age".toList, "main".toList, some "min:1, nocolon".toList⟩ (.int 0) []
      = [⟨GoError.ErrValidateForUnexportedFields⟩] :=
  ⟨⟨by decide, rfl⟩, ValidateField_unexported _ _ _ (by decide) rfl⟩

/-- C8: `Error()` joins the messages with `" ,"` (a space, then a comma), not
with `", "`: the collection of the messages `a` and `b` renders as `a ,b`. -/
theorem Error_separator :
    ValidationErrors.Error [⟨GoError.New "a".toList⟩, ⟨GoError.New "b".toList⟩]
      = some "a ,b".toList ∧
    ValidationErrors.Error [⟨GoError.New "a".toList⟩, ⟨GoError.New "b".toList⟩]
      ≠ some "a, b".toList := by
  decide

/-- C9: for a struct input `Validate` returns `nil` if and only if no field
contributes an error; otherwise it returns the collection, which then has at
least one member: it never returns `ErrNotStruct` or an empty collection. -/
theorem Validate_struct_result (sched : List Nat) (fields : List Field) :
    (Validate sched (Any.struct fields) = Outcome.nil ↔
      ∀ fld ∈ fields, ValidateField fld.f fld.v [] = []) ∧
    (Validate sched (Any.struct fields) = Outcome.nil ∨
      ∃ errs : ValidationErrors, Validate sched (Any.struct fields) = Outcome.errs errs ∧
        1 ≤ errs.length) ∧
    Validate sched (Any.struct fields) ≠ Outcome.ErrNotStruct ∧
    Validate sched (Any.struct fields) ≠ Outcome.errs [] ∧
    Validate sched (Any.struct fields) ≠ Outcome.panic := by
  have hnil : runTasks sched (fields.map taskAppends) [] = [] ↔
      ∀ fld ∈ fields, ValidateField fld.f fld.v [] = [] := by
    rw [runTasks_eq_nil_iff]
    simp [taskAppends]
  rw [Validate_struct_eq]
  by_cases h0 : (runTasks sched (fields.map taskAppends) []).length = 0
  · have hr : runTasks sched (fields.map taskAppends) [] = [] := List.length_eq_zero.mp h0
    rw [if_pos h0]
    refine ⟨?_, Or.inl rfl, ?_, ?_, ?_⟩
    · exact ⟨fun _ => hnil.mp hr, fun _ => rfl⟩
    · intro h; cases h
    · intro h; cases h
    · intro h; cases h
  · have hr : runTasks sched (fields.map taskAppends) [] ≠ [] :=
      fun h => h0 (by rw [h]; rfl)
    rw [if_neg h0]
    refine ⟨?_, Or.inr ⟨_, rfl, ?_⟩, ?_, ?_, ?_⟩
    · exact ⟨fun h => (by cases h), fun h => absurd (hnil.mpr h) hr⟩
    · exact Nat.one_le_iff_ne_zero.mpr h0
    · intro h; cases h
    · intro h
      injection h with h
      exact hr h
    · intro h; cases h

/-- C10: for a struct none of whose fields carries a `validate` annotation (the
struct without fields included) `Validate` returns `nil`, whatever the kinds,
the visibility and the values of the fields. -/
theorem Validate_no_annotation (sched : List Nat) (fields : List Field)
    (h : ∀ fld ∈ fields, fld.f.Tag = none) :
    Validate sched (Any.struct fields) = Outcome.nil := by
  have hnil : runTasks sched (fields.map taskAppends) [] = [] := by
    rw [runTasks_eq_nil_iff]
    intro l hl
    obtain ⟨fld, hfld, rfl⟩ := List.mem_map.mp hl
    simp [taskAppends, ValidateField, h fld hfld]
  rw [Validate_struct_eq, hnil]
  rfl

theorem Validate_no_annotation_witness :
    (∀ fld ∈ plainFields, fld.f.Tag = none) ∧
    Validate [2, 0, 1] (Any.struct plainFields) = Outcome.nil :=
  ⟨by simp [plainFields], Validate_no_annotation [2, 0, 1] plainFields (by simp [plainFields])⟩

/-- C11, as the code has it: for a string field `min`, `max` and `len` compare the
bound with the length of the string in bytes of its UTF-8 encoding (`v.Len()`),
not with its number of characters.  The byte length is at least the number of
characters, equal to it for ASCII text and at least twice it for text without
ASCII characters: a value of `k ≥ 1` non-ASCII characters violates `max:k` and
`len:k` with the greater-than-k error. -/
theorem string_measure_is_byte_length (name s tagMin tagMax tagLen arg : GoString) (N : Int)
    (harg : Atoi arg = some N)
    (hmin : clauses tagMin = ["min:".toList ++ arg])
    (hmax : clauses tagMax = ["max:".toList ++ arg])
    (hlen : clauses tagLen = ["len:".toList ++ arg]) :
    ValidateField ⟨name, [], some tagMin⟩ (Value.str s) [] =
      (if len s < N then
        [⟨GoError.New ("field ".toList ++ name ++ " is less than ".toList ++ Itoa N)⟩]
       else []) ∧
    ValidateField ⟨name, [], some tagMax⟩ (Value.str s) [] =
      (if len s > N then
        [⟨GoError.New ("field ".toList ++ name ++ " is greater than ".toList ++ Itoa N)⟩]
       else []) ∧
    ValidateField ⟨name, [], some tagLen⟩ (Value.str s) [] =
      (if len s > N then
        [⟨GoError.New ("field ".toList ++ name ++ " is greater than ".toList ++ Itoa N)⟩]
       else if len s < N then
        [⟨GoError.New ("field ".toList ++ name ++ " is less than ".toList ++ Itoa N)⟩]
       else []) ∧
    (s.length : Int) ≤ len s ∧
    ((∀ c ∈ s, c.toNat < 128) → len s = (s.length : Int)) ∧
    ((∀ c ∈ s, 128 ≤ c.toNat) → s ≠ [] → N = (s.length : Int) →
      ValidateField ⟨name, [], some tagMax⟩ (Value.str s) [] =
        [⟨GoError.New ("field ".toList ++ name ++ " is greater than ".toList ++ Itoa N)⟩] ∧
      ValidateField ⟨name, [], some tagLen⟩ (Value.str s) [] =
        [⟨GoError.New ("field ".toList ++ name ++ " is greater than ".toList ++ Itoa N)⟩]) := by
  obtain ⟨t1, hs1, ht1⟩ := clauses_singleton _ _ hmin
  obtain ⟨t2, hs2, ht2⟩ := clauses_singleton _ _ hmax
  obtain ⟨t3, hs3, ht3⟩ := clauses_singleton _ _ hlen
  have e1 : ValidateField ⟨name, [], some tagMin⟩ (Value.str s) [] =
      (if len s < N then
        [⟨GoError.New ("field ".toList ++ name ++ " is less than ".toList ++ Itoa N)⟩]
       else []) := by
    rw [ValidateField_exported, hs1, validateTags_cons_min _ _ _ _ _ _ _ ht1 harg, validateTags]
    simp [MinCheck, MinCheckInt]
  have e2 : ValidateField ⟨name, [], some tagMax⟩ (Value.str s) [] =
      (if len s > N then
        [⟨GoError.New ("field ".toList ++ name ++ " is greater than ".toList ++ Itoa N)⟩]
       else []) := by
    rw [ValidateField_exported, hs2, validateTags_cons_max _ _ _ _ _ _ _ ht2 harg, validateTags]
    simp [MaxCheck, MaxCheckInt]
  have e3 : ValidateField ⟨name, [], some tagLen⟩ (Value.str s) [] =
      (if len s > N then
        [⟨GoError.New ("field ".toList ++ name ++ " is greater than ".toList ++ Itoa N)⟩]
       else if len s < N then
        [⟨GoError.New ("field ".toList ++ name ++ " is less than ".toList ++ Itoa N)⟩]
       else []) := by
    rw [ValidateField_exported, hs3, validateTags_cons_len _ _ _ _ _ _ _ ht3 harg, validateTags]
    simp only [MinCheck, MaxCheck, MinCheckInt, MaxCheckInt]
    by_cases hgt : len s > N
    · have hlt : ¬ len s < N := by omega
      simp [hgt, hlt]
    · by_cases hlt : len s < N
      · simp [hgt, hlt]
      · simp [hgt, hlt]
  refine ⟨e1, e2, e3, length_le_len s, len_ascii s, ?_⟩
  intro hnon hne hN
  have h2 := len_nonascii s hnon
  have hpos : 0 < s.length := List.length_pos.mpr hne
  have hgt : len s > N := by omega
  rw [e2, e3, if_pos hgt, if_pos hgt]
  exact ⟨rfl, rfl⟩

theorem string_measure_is_byte_length_witness :
    Atoi "2".toList = some 2 ∧
    clauses "min:2".toList = ["min:".toList ++ "2".toList] ∧
    clauses "max:2".toList = ["max:".toList ++ "2".toList] ∧
    clauses "len:2".toList = ["len:".toList ++ "2".toList] ∧
    ValidateField ⟨"Name".toList, [], some "max:2".toList⟩ (Value.str "éé".toList) [] =
      (if len "éé".toList > 2 then
        [⟨GoError.New
          ("field ".toList ++ "Name".toList ++ " is greater than ".toList ++ Itoa 2)⟩]
       else []) :=
  ⟨by decide, by decide, by decide, by decide,
    (string_measure_is_byte_length "Name".toList "éé".toList "min:2".toList "max:2".toList
      "len:2".toList "2".toList 2 (by decide) (by decide) (by decide) (by decide)).2.1⟩

/-- C11, as stated, fails: the string `"é"` has one character and two bytes; the
exported string field `Name` holding it does not satisfy `max:1` nor `len:1`,
it yields the greater-than-1 error. -/
theorem one_character_two_bytes :
    "é".toList.length = 1 ∧ len "é".toList = 2 ∧
    ValidateField ⟨"Name".toList, [], some "max:1".toList⟩ (Value.str "é".toList) [] =
      [⟨GoError.New "field Name is greater than 1".toList⟩] ∧
    ValidateField ⟨"Name".toList, [], some "len:1".toList⟩ (Value.str "é".toList) [] =
      [⟨GoError.New "field Name is greater than 1".toList⟩] := by
  decide

/-- C12: a clause with a name other than `min`, `max`, `len` and `in` has no
effect: for every exported field, an annotation with such a clause among its
clauses yields the same sequence of errors as the annotation without it,
whatever the argument of the clause and wherever it stands; an annotation made
only of such clauses yields no error. -/
theorem unrecognized_clause_no_effect (name : GoString) (v : Value)
    (tagWith tagWithout tagOnly t : GoString) (pre post : List GoString)
    (ht : isUnrecognized t = true)
    (hwith : Split tagWith ", ".toList = pre ++ t :: post)
    (hwithout : Split tagWithout ", ".toList = pre ++ post)
    (honly : ∀ c ∈ Split tagOnly ", ".toList, isUnrecognized c = true) :
    ValidateField ⟨name, [], some tagWith⟩ v [] = ValidateField ⟨name, [], some tagWithout⟩ v [] ∧
    ValidateField ⟨name, [], some tagOnly⟩ v [] = [] := by
  refine ⟨?_, ?_⟩
  · rw [ValidateField_exported, ValidateField_exported, hwith, hwithout,
      validateTags_drop_unrecognized _ v t post ht pre []]
    exact validateTags_name ⟨name, [], some tagWith⟩ ⟨name, [], some tagWithout⟩ v rfl _ _
  · rw [ValidateField_exported]
    exact validateTags_all_unrecognized _ v _ [] honly

theorem unrecognized_clause_no_effect_witness :
    (isUnrecognized "foo:bar".toList = true ∧
      Split "min:2, foo:bar, max:5".toList ", ".toList =
        ["min:2".toList] ++ "foo:bar".toList :: ["max:5".toList] ∧
      Split "min:2, max:5".toList ", ".toList = ["min:2".toList] ++ ["max:5".toList] ∧
      ∀ c ∈ Split "foo:1, required:".toList ", ".toList, isUnrecognized c = true) ∧
    (ValidateField ⟨"Name".toList, [], some "min:2, foo:bar, max:5".toList⟩
        (Value.str "o".toList) [] =
      ValidateField ⟨"Name".toList, [], some "min:2, max:5".toList⟩ (Value.str "o".toList) [] ∧
     ValidateField ⟨"Name".toList, [], some "foo:1, required:".toList⟩
        (Value.str "o".toList) [] = []) :=
  ⟨⟨by decide, by decide, by decide, by decide⟩,
    unrecognized_clause_no_effect "Name".toList (Value.str "o".toList)
      "min:2, foo:bar, max:5".toList "min:2, max:5".toList "foo:1, required:".toList
      "foo:bar".toList ["min:2".toList] ["max:5".toList]
      (by decide) (by decide) (by decide) (by decide)⟩

/-- C13: for every field, exported or not and of every kind, and every argument
text `N`, the annotation with the single clause `len:N` yields the same
sequence of errors, hence the same set, as the annotation with the two clauses
`min:N` and `max:N`. -/
theorem len_same_as_min_max (name pkg : GoString) (v : Value) (tagLen tagMinMax arg : GoString)
    (hlen : clauses tagLen = ["len:".toList ++ arg])
    (hmm : clauses tagMinMax = ["min:".toList ++ arg, "max:".toList ++ arg]) :
    ValidateField ⟨name, pkg, some tagLen⟩ v [] =
      ValidateField ⟨name, pkg, some tagMinMax⟩ v [] := by
  obtain ⟨t, hs, ht⟩ := clauses_singleton _ _ hlen
  obtain ⟨t1, t2, hs2, ht1, ht2⟩ := clauses_pair _ _ _ hmm
  by_cases hexp : pkg = []
  · have e1 : (StructField.mk name pkg (some tagLen)).IsExported = true := by
      simp [StructField.IsExported, hexp]
    have e2 : (StructField.mk name pkg (some tagMinMax)).IsExported = true := by
      simp [StructField.IsExported, hexp]
    rw [ValidateField_of_exported _ v tagLen e1 rfl, ValidateField_of_exported _ v tagMinMax e2 rfl,
      hs, hs2]
    cases harg : Atoi arg with
    | none =>
      have m1 : isMalformed t = true := by
        unfold isMalformed
        rw [ht, Cut_len]
        simp [harg]
      have m2 : isMalformed t1 = true := by
        unfold isMalformed
        rw [ht1, Cut_min]
        simp [harg]
      rw [validateTags_cons_malformed _ v t [] [] m1, validateTags_cons_malformed _ v t1 [t2] [] m2]
    | some N =>
      rw [validateTags_cons_len _ v t arg N [] [] ht harg,
        validateTags_cons_min _ v t1 arg N [t2] [] ht1 harg,
        validateTags_cons_max _ v t2 arg N [] _ ht2 harg, validateTags, validateTags]
      have h := (LenCheck_eq N ⟨name, pkg, some tagLen⟩ v).1
      rw [h]
      cases v <;> simp [MinCheck, MaxCheck]
  · have e1 : (StructField.mk name pkg (some tagLen)).IsExported = false := by
      simp [StructField.IsExported, hexp]
    have e2 : (StructField.mk name pkg (some tagMinMax)).IsExported = false := by
      simp [StructField.IsExported, hexp]
    simp [ValidateField, CheckExport, e1, e2]

theorem len_same_as_min_max_witness :
    (clauses "len:3".toList = ["len:".toList ++ "3".toList] ∧
      clauses "min:3, max:3".toList = ["min:".toList ++ "3".toList, "max:".toList ++ "3".toList]) ∧
    ValidateField ⟨"Age".toList, [], some "len:3".toList⟩ (Value.int 5) [] =
      ValidateField ⟨"Age".toList, [], some "min:3, max:3".toList⟩ (Value.int 5) [] :=
  ⟨⟨by decide, by decide⟩,
    len_same_as_min_max "Age".toList [] (Value.int 5) "len:3".toList "min:3, max:3".toList
      "3".toList (by decide) (by decide)⟩

/-- C14: every clause adds at most one error to the collection, for every field
kind and value; a `len:N` clause adds exactly one error on a string or int
field whose measure differs from `N`, and none when the measure equals `N`
(and none on a field of another kind); the number of errors of a field never
exceeds the number of clauses of its annotation. -/
theorem clause_at_most_one_error (f : StructField) (v : Value) (t tLen arg tagstr : GoString)
    (N : Int) (errs : ValidationErrors)
    (hlen : TrimSpace tLen = "len:".toList ++ arg) (harg : Atoi arg = some N)
    (htag : f.Tag = some tagstr) :
    (∃ d : ValidationErrors, validateTags f v [t] errs = errs ++ d ∧ d.length ≤ 1) ∧
    (validateTags f v [tLen] []).length =
      (if (v.Kind = Kind.String ∨ v.Kind = Kind.Int) ∧ measure v ≠ N then 1 else 0) ∧
    (ValidateField f v []).length ≤ (Split tagstr ", ".toList).length := by
  refine ⟨?_, ?_, ?_⟩
  · refine ⟨(clauseStep f v t []).1, ?_, clauseStep_length f v t⟩
    rw [validateTags_cons_step, validateTags, ← clauseStep_append]
    split <;> rfl
  · rw [validateTags_cons_len f v tLen arg N [] [] hlen harg, validateTags]
    cases v with
    | int n =>
      simp only [MinCheck, MaxCheck, MinCheckInt, MaxCheckInt, measure, Value.Kind]
      by_cases h1 : n > N
      · have h2 : ¬ n < N := by omega
        have h3 : ¬ n = N := by omega
        simp [h1, h2, h3]
      · by_cases h2 : n < N
        · have h3 : ¬ n = N := by omega
          simp [h1, h2, h3]
        · have h3 : n = N := by omega
          simp [h3]
    | str s =>
      simp only [MinCheck, MaxCheck, MinCheckInt, MaxCheckInt, measure, Value.Kind]
      by_cases h1 : len s > N
      · have h2 : ¬ len s < N := by omega
        have h3 : ¬ len s = N := by omega
        simp [h1, h2, h3]
      · by_cases h2 : len s < N
        · have h3 : ¬ len s = N := by omega
          simp [h1, h2, h3]
        · have h3 : len s = N := by omega
          simp [h3]
    | other k h1 h2 =>
      have hk : ¬ ((k = Kind.String ∨ k = Kind.Int) ∧ measure (Value.other k h1 h2) ≠ N) := by
        rintro ⟨h | h, _⟩
        · exact h2 h
        · exact h1 h
      simp only [MinCheck, MaxCheck, Value.Kind]
      rw [if_neg hk]
      rfl
  · have hpos := Split_length_pos tagstr
    cases hexp : f.IsExported with
    | false =>
      have : ValidateField f v [] = [⟨GoError.ErrValidateForUnexportedFields⟩] := by
        simp [ValidateField, htag, CheckExport, hexp]
      rw [this]
      exact hpos
    | true =>
      rw [ValidateField_of_exported f v tagstr hexp htag]
      have := validateTags_length f v (Split tagstr ", ".toList) []
      simpa using this

theorem clause_at_most_one_error_witness :
    (TrimSpace "len:3".toList = "len:".toList ++ "3".toList ∧ Atoi "3".toList = some 3 ∧
      (StructField.mk "Flag".toList [] (some "len:3, in:1,2".toList)).Tag
        = some "len:3, in:1,2".toList) ∧
    ((∃ d : ValidationErrors,
        validateTags ⟨"Flag".toList, [], some "len:3, in:1,2".toList⟩
          (Value.other Kind.Bool (by decide) (by decide)) ["in:1,2".toList] [] = [] ++ d ∧
        d.length ≤ 1) ∧
     (validateTags ⟨"Flag".toList, [], some "len:3, in:1,2".toList⟩
        (Value.other Kind.Bool (by decide) (by decide)) ["len:3".toList] []).length =
        (if ((Value.other Kind.Bool (by decide) (by decide)).Kind = Kind.String ∨
              (Value.other Kind.Bool (by decide) (by decide)).Kind = Kind.Int) ∧
            measure (Value.other Kind.Bool (by decide) (by decide)) ≠ 3 then 1 else 0) ∧
     (ValidateField ⟨"Flag".toList, [], some "len:3, in:1,2".toList⟩
        (Value.other Kind.Bool (by decide) (by decide)) []).length ≤
        (Split "len:3, in:1,2".toList ", ".toList).length) :=
  ⟨⟨by decide, by decide, rfl⟩,
    clause_at_most_one_error ⟨"Flag".toList, [], some "len:3, in:1,2".toList⟩
      (Value.other Kind.Bool (by decide) (by decide))
      "in:1,2".toList "len:3".toList "3".toList "len:3, in:1,2".toList 3 []
      (by decide) (by decide) rfl⟩

/-- C15: the multiset of errors `Validate` returns does not depend on the
schedule of the field tasks: under every schedule the returned collection is a
permutation of the concatenation, in declaration order, of the sequences of
errors each field yields on its own; the collections, and their messages, of
two calls on the same input are permutations of each other; and the
collections of the schedules are exactly the interleavings of the appends of
the tasks. -/
theorem Validate_schedule_independent (sched sched2 : List Nat) (fields : List Field) :
    List.Perm (Validate sched (Any.struct fields)).collection
      (fields.map (fun fld => ValidateField fld.f fld.v [])).flatten ∧
    List.Perm (Validate sched (Any.struct fields)).collection
      (Validate sched2 (Any.struct fields)).collection ∧
    List.Perm ((Validate sched (Any.struct fields)).collection.map (fun e => e.Err.Error))
      ((Validate sched2 (Any.struct fields)).collection.map (fun e => e.Err.Error)) ∧
    ∀ r : ValidationErrors,
      Interleaving (fields.map (fun fld => ValidateField fld.f fld.v [])) r ↔
      ∃ s : List Nat, (Validate s (Any.struct fields)).collection = r := by
  have htask : (fun fld : Field => ValidateField fld.f fld.v []) = taskAppends := rfl
  have h1 : ∀ s : List Nat, List.Perm (Validate s (Any.struct fields)).collection
      (fields.map taskAppends).flatten := by
    intro s
    rw [Validate_collection]
    simpa using runTasks_perm s (fields.map taskAppends) []
  have h2 : List.Perm (Validate sched (Any.struct fields)).collection
      (Validate sched2 (Any.struct fields)).collection := (h1 sched).trans (h1 sched2).symm
  rw [htask]
  refine ⟨h1 sched, h2, h2.map _, ?_⟩
  intro r
  constructor
  · intro hr
    obtain ⟨s, hs⟩ := Interleaving_scheduled _ r hr
    exact ⟨s, by rw [Validate_collection, hs]⟩
  · rintro ⟨s, hs⟩
    rw [← hs, Validate_collection]
    exact runTasks_interleaving s _

/-- C17: for an exported field whose annotation has its first malformed clause at
position `k` of its clauses, the sequence of errors of the field is the errors
of the clauses before position `k`, all of them errors of violated rules,
followed by one `ErrInvalidValidatorSyntax`; the clauses after position `k` are
not looked at.  No field, whatever its annotation, contributes
`ErrInvalidValidatorSyntax` more than once. -/
theorem short_circuit_at_first_malformed (name : GoString) (v : Value) (tagstr bad : GoString)
    (k : Nat)
    (hk : (Split tagstr ", ".toList)[k]? = some bad)
    (hbad : isMalformed bad = true)
    (hpre : ∀ t ∈ (Split tagstr ", ".toList).take k, isMalformed t = false) :
    ValidateField ⟨name, [], some tagstr⟩ v [] =
      validateTags ⟨name, [], some tagstr⟩ v ((Split tagstr ", ".toList).take k) [] ++
        [⟨GoError.ErrInvalidValidatorSyntax⟩] ∧
    (∀ e ∈ validateTags ⟨name, [], some tagstr⟩ v ((Split tagstr ", ".toList).take k) [],
      isRuleViolation e) ∧
    (ValidateField ⟨name, [], some tagstr⟩ v []).count ⟨GoError.ErrInvalidValidatorSyntax⟩ = 1 ∧
    ∀ (f : StructField) (w : Value),
      (ValidateField f w []).count ⟨GoError.ErrInvalidValidatorSyntax⟩ ≤ 1 := by
  have hsplit := list_split_at_index _ k bad hk
  have hval : ValidateField ⟨name, [], some tagstr⟩ v [] =
      validateTags ⟨name, [], some tagstr⟩ v ((Split tagstr ", ".toList).take k) [] ++
        [⟨GoError.ErrInvalidValidatorSyntax⟩] := by
    rw [ValidateField_exported]
    conv => lhs; rw [hsplit]
    exact validateTags_first_malformed _ v bad _ hbad _ [] hpre
  have hrule := validateTags_ruleViolation ⟨name, [], some tagstr⟩ v
    ((Split tagstr ", ".toList).take k) [] hpre (fun _ h => (by cases h))
  refine ⟨hval, hrule, ?_, ValidateField_count_invalid⟩
  rw [hval, List.count_append, count_invalid_ruleViolations _ hrule]
  simp

theorem short_circuit_at_first_malformed_witness :
    ((Split "min:5, max:x, nocolon, in:a".toList ", ".toList)[1]? = some "max:x".toList ∧
      isMalformed "max:x".toList = true ∧
      ∀ t ∈ (Split "min:5, max:x, nocolon, in:a".toList ", ".toList).take 1,
        isMalformed t = false) ∧
    ValidateField ⟨"Name".toList, [], some "min:5, max:x, nocolon, in:a".toList⟩
        (Value.str "o".toList) [] =
      validateTags ⟨"Name".toList, [], some "min:5, max:x, nocolon, in:a".toList⟩
        (Value.str "o".toList)
        ((Split "min:5, max:x, nocolon, in:a".toList ", ".toList).take 1) [] ++
        [⟨GoError.ErrInvalidValidatorSyntax⟩] :=
  ⟨⟨by decide, by decide, by decide⟩,
    (short_circuit_at_first_malformed "Name".toList (Value.str "o".toList)
      "min:5, max:x, nocolon, in:a".toList "max:x".toList 1
      (by decide) (by decide) (by decide)).1⟩

/-- C18: for an exported field and two annotations `A` and `B`, `A` without a
malformed clause, the sequence of errors of the annotation `A, B` is the
sequence of errors of `A` followed by the sequence of errors of `B`.  Repeated
rules are each evaluated: `min:2, min:5` on a string or int value of measure 1
yields the less-than-2 error and then the less-than-5 error. -/
theorem rules_in_declaration_order (name : GoString) (v : Value) (A B : GoString)
    (hA : ∀ t ∈ Split A ", ".toList, isMalformed t = false) :
    ValidateField ⟨name, [], some (A ++ ", ".toList ++ B)⟩ v [] =
      ValidateField ⟨name, [], some A⟩ v [] ++ ValidateField ⟨name, [], some B⟩ v [] ∧
    ((v.Kind = Kind.String ∨ v.Kind = Kind.Int) → measure v = 1 →
      ValidateField ⟨name, [], some "min:2, min:5".toList⟩ v [] =
        [⟨GoError.New ("field ".toList ++ name ++ " is less than 2".toList)⟩,
         ⟨GoError.New ("field ".toList ++ name ++ " is less than 5".toList)⟩]) := by
  refine ⟨?_, ?_⟩
  · rw [ValidateField_exported, ValidateField_exported, ValidateField_exported,
      Split_append_sep B A.length A (Nat.le_refl _),
      validateTags_wellformed_append _ v _ _ [] hA, validateTags_append,
      validateTags_name ⟨name, [], some (A ++ ", ".toList ++ B)⟩ ⟨name, [], some A⟩ v rfl,
      validateTags_name ⟨name, [], some (A ++ ", ".toList ++ B)⟩ ⟨name, [], some B⟩ v rfl]
  · intro hkind hm
    have hsplit : Split "min:2, min:5".toList ", ".toList = ["min:2".toList, "min:5".toList] := by
      decide
    have a2 : Atoi "2".toList = some 2 := by decide
    have a5 : Atoi "5".toList = some 5 := by decide
    have i2 : Itoa 2 = "2".toList := by decide
    have i5 : Itoa 5 = "5".toList := by decide
    rw [ValidateField_exported, hsplit,
      validateTags_cons_min _ _ "min:2".toList "2".toList 2 _ _ (by decide) a2,
      validateTags_cons_min _ _ "min:5".toList "5".toList 5 _ _ (by decide) a5, validateTags]
    cases v with
    | int n =>
      simp only [measure] at hm
      subst hm
      simp [MinCheck, MinCheckInt, i2, i5]
    | str s =>
      simp only [measure] at hm
      simp [MinCheck, MinCheckInt, i2, i5, hm]
    | other k h1 h2 =>
      rcases hkind with h | h
      · exact absurd h h2
      · exact absurd h h1

theorem rules_in_declaration_order_witness :
    (∀ t ∈ Split "min:2, in:a,b".toList ", ".toList, isMalformed t = false) ∧
    ValidateField ⟨"Name".toList, [],
        some ("min:2, in:a,b".toList ++ ", ".toList ++ "max:0, oops".toList)⟩
        (Value.str "o".toList) [] =
      ValidateField ⟨"Name".toList, [], some "min:2, in:a,b".toList⟩ (Value.str "o".toList) [] ++
        ValidateField ⟨"Name".toList, [], some "max:0, oops".toList⟩ (Value.str "o".toList) [] :=
  ⟨by decide,
    (rules_in_declaration_order "Name".toList (Value.str "o".toList) "min:2, in:a,b".toList
      "max:0, oops".toList (by decide)).1⟩

/-- C19: an annotation that is present and empty, or made of white space only, is
not taken for a missing annotation: the exported field contributes exactly
one error, `ErrInvalidValidatorSyntax`, whatever its kind and value. -/
theorem empty_annotation_syntax_error (name : GoString) (v : Value) (ws : GoString)
    (hws : ∀ c ∈ ws, isSpace c = true) :
    ValidateField ⟨name, [], some []⟩ v [] = [⟨GoError.ErrInvalidValidatorSyntax⟩] ∧
    ValidateField ⟨name, [], some ws⟩ v [] = [⟨GoError.ErrInvalidValidatorSyntax⟩] := by
  have key : ∀ s : GoString, (∀ c ∈ s, isSpace c = true) →
      ValidateField ⟨name, [], some s⟩ v [] = [⟨GoError.ErrInvalidValidatorSyntax⟩] := by
    intro s hs
    have hcomma : ',' ∉ s := by
      intro h
      have := hs _ h
      revert this
      decide
    have htrim : TrimSpace s = [] := by
      unfold TrimSpace
      rw [List.dropWhile_eq_nil_iff.mpr hs]
      rfl
    have hbad : isMalformed s = true := by
      unfold isMalformed
      rw [htrim]
      rfl
    rw [ValidateField_exported, Split_no_comma s hcomma,
      validateTags_cons_malformed _ v s [] [] hbad]
    rfl
  exact ⟨key [] (fun _ h => (by cases h)), key ws hws⟩

theorem empty_annotation_syntax_error_witness :
    (∀ c ∈ " \t ".toList, isSpace c = true) ∧
    ValidateField ⟨"Flag".toList, [], some " \t ".toList⟩
        (Value.other Kind.Bool (by decide) (by decide)) [] =
      [⟨GoError.ErrInvalidValidatorSyntax⟩] :=
  ⟨by decide,
    (empty_annotation_syntax_error "Flag".toList (Value.other Kind.Bool (by decide) (by decide))
      " \t ".toList (by decide)).2⟩

/-- C20: `Error()` is total: on every collection the slice bound `len(err)-2` is
within range and the method returns the messages joined by `" ,"`, also when
every message is empty; the empty collection renders as the empty string and
a collection of one member as the message of that member. -/
theorem Error_total (v : ValidationErrors) :
    (∃ s : GoString, ValidationErrors.Error v = some s) ∧
    ValidationErrors.Error v = some (joinWith " ,".toList (v.map (fun e => e.Err.Error))) ∧
    ValidationErrors.Error [] = some [] ∧
    (∀ e : ValidationError, ValidationErrors.Error [e] = some e.Err.Error) ∧
    ValidationErrors.Error [⟨GoError.New []⟩, ⟨GoError.New []⟩] = some " ,".toList :=
  ⟨⟨_, Error_eq_joinWith v⟩, Error_eq_joinWith v, rfl, fun e => Error_eq_joinWith [e], by decide⟩

end Validator
